import Mathlib

/-!
Verification development for the COLMAP `Reconstruction` scene model
(`src/colmap/scene/reconstruction.h`).

The header declares the data model and operations; the inline accessor
implementations at the bottom of the header are translated directly.
Method bodies that live in `reconstruction.cc` (not part of the provided
sources) are modelled from the specification's description of the
corresponding operation; each such definition carries a doc comment
starting with `Modelled from the spec:`.

Machine integers (`camera_t`, `image_t`, `point3D_t`, `point2D_t`,
`image_pair_t`, `size_t`) are modelled as `Nat`; `double` coordinates are
modelled as exact rationals `ℚ`; `unordered_map` registries are modelled
as association lists keyed by `Nat`.
-/

set_option maxHeartbeats 1000000

namespace Colmap

/-! ### Association-list kit (model of `std::unordered_map`) -/

/-- Lookup in an association list (model of `map.find` / `map.at`). -/
def aget {α : Type} (k : Nat) : List (Nat × α) → Option α
  | [] => none
  | (j, v) :: rest => if j = k then some v else aget k rest

/-- Insert-or-replace in an association list (model of `map.emplace` /
`map[k] = v`). -/
def aset {α : Type} (k : Nat) (v : α) : List (Nat × α) → List (Nat × α)
  | [] => [(k, v)]
  | (j, w) :: rest => if j = k then (k, v) :: rest else (j, w) :: aset k v rest

/-- Remove a key from an association list (model of `map.erase`). -/
def aerase {α : Type} (k : Nat) : List (Nat × α) → List (Nat × α)
  | [] => []
  | (j, w) :: rest => if j = k then aerase k rest else (j, w) :: aerase k rest

/-- Modify the value stored at a key, if present (model of `map.at(k) = f(...)`). -/
def amodify {α : Type} (k : Nat) (f : α → α) : List (Nat × α) → List (Nat × α)
  | [] => []
  | (j, v) :: rest => if j = k then (j, f v) :: rest else (j, v) :: amodify k f rest

/-- The keys of an association list. -/
def akeys {α : Type} (l : List (Nat × α)) : List Nat := l.map Prod.fst

/-! ### List-by-index kit (model of `std::vector` element access) -/

/-- Element at an index (model of `vector::operator[]` with bounds check). -/
def nth {α : Type} : List α → Nat → Option α
  | [], _ => none
  | a :: _, 0 => some a
  | _ :: l, n + 1 => nth l n

/-- Apply a function to the element at an index, leaving the list unchanged
when the index is out of range. -/
def setNth {α : Type} (f : α → α) : List α → Nat → List α
  | [], _ => []
  | a :: l, 0 => f a :: l
  | a :: l, n + 1 => a :: setNth f l n

/-! ### Data model (per `reconstruction.h` and the headers it includes) -/

/-- `camera_t` identifier. -/
abbrev CameraId := Nat
/-- `image_t` identifier. -/
abbrev ImageId := Nat
/-- `point3D_t` identifier. -/
abbrev Point3DId := Nat
/-- `point2D_t` keypoint-slot index. -/
abbrev Point2DIdx := Nat
/-- `image_pair_t` pair identifier. -/
abbrev ImagePairId := Nat

/-- Camera intrinsics: a model identifier and parameter vector. -/
structure Camera where
  modelId : Nat
  params : List ℚ
deriving DecidableEq, Repr

/-- A 2D keypoint slot: pixel coordinates and the optional back-reference to
the 3D point it is triangulated into (`kInvalidPoint3DId` modelled as
`none`). -/
structure Point2D where
  x : ℚ
  y : ℚ
  point3DId : Option Point3DId
deriving DecidableEq, Repr

/-- An image: owning camera, pose (rotation quaternion + translation),
registration flag, and the ordered keypoint slots. -/
structure Image where
  cameraId : CameraId
  pose : (ℚ × ℚ × ℚ × ℚ) × (ℚ × ℚ × ℚ)
  registered : Bool
  points2D : List Point2D
deriving DecidableEq, Repr

/-- One observation: an (image identifier, keypoint-slot index) pair. -/
structure TrackElement where
  imageId : ImageId
  point2DIdx : Point2DIdx
deriving DecidableEq, Repr

/-- A 3D point: position, color, cached mean reprojection error, and its
track of observations. -/
structure Point3D where
  x : ℚ
  y : ℚ
  z : ℚ
  color : Nat × Nat × Nat
  error : ℚ
  track : List TrackElement
deriving DecidableEq, Repr

/-- Pairwise image statistics (`Reconstruction::ImagePairStat`). -/
structure ImagePairStat where
  numTriCorrs : Nat
  numTotalCorrs : Nat
deriving DecidableEq, Repr

/-- The reconstruction state: the private members of `Reconstruction`. -/
structure Reconstruction where
  cameras : List (CameraId × Camera)
  images : List (ImageId × Image)
  points3D : List (Point3DId × Point3D)
  imagePairStats : List (ImagePairId × ImagePairStat)
  regImageIds : List ImageId
  maxPoint3DId : Point3DId
deriving DecidableEq, Repr

/-- The freshly constructed reconstruction: all registries empty. -/
def recInit : Reconstruction :=
  { cameras := [], images := [], points3D := [], imagePairStats := [],
    regImageIds := [], maxPoint3DId := 0 }

/-! ### Accessors (translated from the inline implementations in the header) -/

/-- `Reconstruction::NumCameras`. -/
def numCameras (s : Reconstruction) : Nat := s.cameras.length

/-- `Reconstruction::NumImages`. -/
def numImages (s : Reconstruction) : Nat := s.images.length

/-- `Reconstruction::NumRegImages`. -/
def numRegImages (s : Reconstruction) : Nat := s.regImageIds.length

/-- `Reconstruction::NumPoints3D`. -/
def numPoints3D (s : Reconstruction) : Nat := s.points3D.length

/-- `Reconstruction::ExistsCamera`. -/
def existsCamera (s : Reconstruction) (id : CameraId) : Bool :=
  (aget id s.cameras).isSome

/-- `Reconstruction::ExistsImage`. -/
def existsImage (s : Reconstruction) (id : ImageId) : Bool :=
  (aget id s.images).isSome

/-- `Reconstruction::ExistsPoint3D`. -/
def existsPoint3D (s : Reconstruction) (id : Point3DId) : Bool :=
  (aget id s.points3D).isSome

/-- `Reconstruction::ExistsImagePair`. -/
def existsImagePair (s : Reconstruction) (id : ImagePairId) : Bool :=
  (aget id s.imagePairStats).isSome

/-- `Reconstruction::Image(image_id)`: `images_.at(image_id)`; the
`at`-throws-on-absence partiality is modelled with `Option`. -/
def imageAt (s : Reconstruction) (id : ImageId) : Option Image :=
  aget id s.images

/-- `Reconstruction::Point3D(point3D_id)`: `points3D_.at(point3D_id)`. -/
def point3DAt (s : Reconstruction) (id : Point3DId) : Option Point3D :=
  aget id s.points3D

/-- `Reconstruction::IsImageRegistered`: `Image(image_id).IsRegistered()`;
the lookup failure of `at` on a missing image is `none`. -/
def isImageRegistered (s : Reconstruction) (id : ImageId) : Option Bool :=
  (imageAt s id).map Image.registered

/-- The keypoint slot `point2D_idx` of image `image_id`, when both exist. -/
def point2DAt (s : Reconstruction) (id : ImageId) (idx : Point2DIdx) : Option Point2D :=
  (aget id s.images).bind fun im => nth im.points2D idx

/-- Modelled from the spec: `Database::ImagePairToPairId` (from
`colmap/scene/database.h`, not among the provided sources): a canonical,
order-independent pair identifier derived deterministically from two image
identifiers, injective on unordered pairs.  Modelled as the Cantor-style
pairing of the sorted pair. -/
def imagePairToPairId (id1 id2 : ImageId) : ImagePairId :=
  Nat.pair (min id1 id2) (max id1 id2)

/-- `Reconstruction::ImagePair(image_id1, image_id2)`:
`image_pair_stats_.at(Database::ImagePairToPairId(image_id1, image_id2))`. -/
def imagePair (s : Reconstruction) (id1 id2 : ImageId) : Option ImagePairStat :=
  aget (imagePairToPairId id1 id2) s.imagePairStats

/-! ### Mutating operations

The bodies of the mutating operations live in `reconstruction.cc`, which is
not among the provided sources; they are modelled from the specification's
§4.1–4.2 operation contracts.  Fallible operations return
`Except RecError Reconstruction`. -/

/-- The error taxonomy of spec §7 relevant to the modelled operations. -/
inductive RecError where
  | notFound
  | invalidArgument
deriving DecidableEq, Repr

/-- Run a fallible operation, keeping the previous state when it fails
(failures are surfaced, never partially applied). -/
def runOr (s : Reconstruction) (r : Except RecError Reconstruction) : Reconstruction :=
  match r with
  | .ok t => t
  | .error _ => s

/-- Apply a function to the image stored under `id`, if present. -/
def updateImage (id : ImageId) (f : Image → Image) (s : Reconstruction) : Reconstruction :=
  { s with images := amodify id f s.images }

/-- Apply a function to the 3D point stored under `pid`, if present. -/
def updatePoint (pid : Point3DId) (f : Point3D → Point3D) (s : Reconstruction) : Reconstruction :=
  { s with points3D := amodify pid f s.points3D }

/-- Set the 3D-point back-reference of keypoint slot `idx` of image `id`
(model of `Image::SetPoint3DForPoint2D` / `ResetPoint3DForPoint2D`). -/
def setBR (s : Reconstruction) (id : ImageId) (idx : Point2DIdx)
    (v : Option Point3DId) : Reconstruction :=
  updateImage id (fun im => { im with points2D := setNth (fun p2 => { p2 with point3DId := v }) im.points2D idx }) s

/-- Whether `(el.imageId, el.point2DIdx)` names an existing image, a valid
keypoint slot of that image, and a slot that is not yet linked to any
3D point. -/
def slotFree (s : Reconstruction) (el : TrackElement) : Bool :=
  match point2DAt s el.imageId el.point2DIdx with
  | some p2 => p2.point3DId.isNone
  | none => false

/-- Increment the triangulated-correspondence count of a pair statistic,
creating the entry when absent (spec §3: stats are created/updated
incrementally as observations become triangulated). -/
def incTriCorr (s : Reconstruction) (pairId : ImagePairId) : Reconstruction :=
  { s with imagePairStats :=
      match aget pairId s.imagePairStats with
      | some st => aset pairId { st with numTriCorrs := st.numTriCorrs + 1 } s.imagePairStats
      | none => aset pairId { numTriCorrs := 1, numTotalCorrs := 0 } s.imagePairStats }

/-- Decrement the triangulated-correspondence count of a pair statistic,
when present. -/
def decTriCorr (s : Reconstruction) (pairId : ImagePairId) : Reconstruction :=
  { s with imagePairStats :=
      match aget pairId s.imagePairStats with
      | some st => aset pairId { st with numTriCorrs := st.numTriCorrs - 1 } s.imagePairStats
      | none => s.imagePairStats }

/-- Increment the pair count between the image of `el` and the image of every
element of `track` (spec §4.2, add-observation). -/
def incPairsWith (el : TrackElement) (track : List TrackElement)
    (s : Reconstruction) : Reconstruction :=
  track.foldl (fun acc oel => incTriCorr acc (imagePairToPairId el.imageId oel.imageId)) s

/-- Decrement the pair count between the image of `el` and the image of every
element of `track`. -/
def decPairsWith (el : TrackElement) (track : List TrackElement)
    (s : Reconstruction) : Reconstruction :=
  track.foldl (fun acc oel => decTriCorr acc (imagePairToPairId el.imageId oel.imageId)) s

/-- Decrement the pair counts of every unordered pair of observations of a
track (spec §4.2, delete-point: "decrements corresponding pair
triangulated-counts symmetrically"). -/
def decPairsOfTrack : List TrackElement → Reconstruction → Reconstruction
  | [], s => s
  | el :: rest, s => decPairsOfTrack rest (decPairsWith el rest s)

/-- Clear the back-reference of every observation of a track. -/
def clearTrackBRs (track : List TrackElement) (s : Reconstruction) : Reconstruction :=
  track.foldl (fun acc el => setBR acc el.imageId el.point2DIdx none) s

/-- Set the back-reference of every observation of a track to `pid`. -/
def setTrackBRs (track : List TrackElement) (pid : Point3DId)
    (s : Reconstruction) : Reconstruction :=
  track.foldl (fun acc el => setBR acc el.imageId el.point2DIdx (some pid)) s

/-- Modelled from the spec: `Reconstruction::AddCamera` (body in
`reconstruction.cc`): add a new camera under its identifier; adding a
duplicate identifier is rejected. -/
def addCamera (s : Reconstruction) (id : CameraId) (cam : Camera) :
    Except RecError Reconstruction :=
  if existsCamera s id then .error .invalidArgument
  else .ok { s with cameras := aset id cam s.cameras }

/-- Modelled from the spec: `Reconstruction::AddImage` (body in
`reconstruction.cc`): add a new image; fails with `InvalidArgument` if the
image's camera identifier is unknown, leaving the scene unchanged; adding a
duplicate image identifier is likewise rejected. -/
def addImage (s : Reconstruction) (id : ImageId) (im : Image) :
    Except RecError Reconstruction :=
  if ¬ existsCamera s im.cameraId then .error .invalidArgument
  else if existsImage s id then .error .invalidArgument
  else .ok { s with images := aset id im s.images }

/-- Modelled from the spec: the track-validity precondition of point
creation (§4.2): every referenced image/slot is valid, no slot is already
linked to a point, and no observation is listed twice. -/
def trackAddable (s : Reconstruction) (track : List TrackElement) : Prop :=
  track.Nodup ∧ ∀ el ∈ track, slotFree s el = true

instance (s : Reconstruction) (track : List TrackElement) :
    Decidable (trackAddable s track) := by
  unfold trackAddable; infer_instance

/-- Modelled from the spec: the identifier-generating
`Reconstruction::AddPoint3D(xyz, track, color)` overload (body in
`reconstruction.cc`): a monotonic generator produces the next free
identifier; every TrackElement's keypoint back-reference is set; fails with
`InvalidArgument` if any referenced image/slot is invalid or already
linked. -/
def addPoint3D (s : Reconstruction) (xyz : ℚ × ℚ × ℚ)
    (track : List TrackElement) (color : Nat × Nat × Nat) :
    Except RecError (Point3DId × Reconstruction) :=
  if trackAddable s track then
    let nid := s.maxPoint3DId + 1
    let s1 := setTrackBRs track nid s
    .ok (nid,
      { s1 with
        points3D := aset nid
          { x := xyz.1, y := xyz.2.1, z := xyz.2.2, color := color,
            error := -1, track := track } s1.points3D,
        maxPoint3DId := nid })
  else .error .invalidArgument

/-- Modelled from the spec: the known-identifier
`Reconstruction::AddPoint3D(point3D_id, point3D)` overload (body in
`reconstruction.cc`): adds the point under the given identifier, sets every
keypoint back-reference, and keeps the identifier generator ahead of every
identifier ever added. -/
def addPoint3DWithId (s : Reconstruction) (pid : Point3DId) (p : Point3D) :
    Except RecError Reconstruction :=
  if existsPoint3D s pid then .error .invalidArgument
  else if trackAddable s p.track then
    let s1 := setTrackBRs p.track pid s
    .ok { s1 with
          points3D := aset pid p s1.points3D,
          maxPoint3DId := max s.maxPoint3DId pid }
  else .error .invalidArgument

/-- Modelled from the spec: `Reconstruction::AddObservation` (body in
`reconstruction.cc`): extends the point's track, sets the keypoint
back-reference, and increments the triangulated-correspondence count of
every pair between the observing image and every image already observing
the point. -/
def addObservation (s : Reconstruction) (pid : Point3DId) (el : TrackElement) :
    Except RecError Reconstruction :=
  match aget pid s.points3D with
  | none => .error .notFound
  | some p =>
    if slotFree s el then
      let s1 := setBR s el.imageId el.point2DIdx (some pid)
      let s2 := updatePoint pid (fun q => { q with track := q.track ++ [el] }) s1
      .ok (incPairsWith el p.track s2)
    else .error .invalidArgument

/-- Modelled from the spec: `Reconstruction::DeletePoint3D` (body in
`reconstruction.cc`): clears every keypoint back-reference of the track,
decrements the pair triangulated-counts symmetrically, and removes the
registry entry. -/
def deletePoint3D (s : Reconstruction) (pid : Point3DId) :
    Except RecError Reconstruction :=
  match aget pid s.points3D with
  | none => .error .notFound
  | some p =>
    let s1 := clearTrackBRs p.track s
    let s2 := decPairsOfTrack p.track s1
    .ok { s2 with points3D := aerase pid s2.points3D }

/-- Modelled from the spec: `Reconstruction::DeleteObservation` (body in
`reconstruction.cc`): removes the matching TrackElement from the observed
point's track, clears the keypoint back-reference and adjusts pair counts;
deletes the entire point when the track has two elements prior to the
call. -/
def deleteObservation (s : Reconstruction) (id : ImageId) (idx : Point2DIdx) :
    Except RecError Reconstruction :=
  match point2DAt s id idx with
  | none => .error .notFound
  | some p2 =>
    match p2.point3DId with
    | none => .error .notFound
    | some pid =>
      match aget pid s.points3D with
      | none => .error .notFound
      | some p =>
        if p.track.length ≤ 2 then deletePoint3D s pid
        else
          let rest := p.track.filter (fun e => e ≠ ⟨id, idx⟩)
          let s1 := setBR s id idx none
          let s2 := updatePoint pid (fun q => { q with track := q.track.filter (fun e => e ≠ ⟨id, idx⟩) }) s1
          .ok (decPairsWith ⟨id, idx⟩ rest s2)

/-- Modelled from the spec: `Reconstruction::RegisterImage` (body in
`reconstruction.cc`): sets the registration flag and appends the identifier
to the registered-image sequence; registering an already registered image
is a no-op. -/
def registerImage (s : Reconstruction) (id : ImageId) :
    Except RecError Reconstruction :=
  match aget id s.images with
  | none => .error .notFound
  | some im =>
    if im.registered then .ok s
    else .ok { s with
      images := amodify id (fun im => { im with registered := true }) s.images,
      regImageIds := s.regImageIds ++ [id] }

/-- Delete, slot by slot, every observation held by image `id` among its
first `n` keypoint slots (cascading per the delete-observation rule);
slots without a back-reference are skipped. -/
def deleteObsOfImage (s : Reconstruction) (id : ImageId) : Nat → Reconstruction
  | 0 => s
  | n + 1 =>
    let s1 := deleteObsOfImage s id n
    runOr s1 (deleteObservation s1 id n)

/-- Modelled from the spec: `Reconstruction::DeRegisterImage` (body in
`reconstruction.cc`): deletes every observation the image holds (cascading),
clears the registration flag, and removes the identifier from the
registered-image sequence. -/
def deRegisterImage (s : Reconstruction) (id : ImageId) :
    Except RecError Reconstruction :=
  match aget id s.images with
  | none => .error .notFound
  | some im =>
    let s1 := deleteObsOfImage s id im.points2D.length
    .ok { s1 with
      images := amodify id (fun im => { im with registered := false }) s1.images,
      regImageIds := s1.regImageIds.filter (fun j => j ≠ id) }

/-- Modelled from the spec: `Reconstruction::MergePoints3D` (body in
`reconstruction.cc`): the merged position is the track-length-weighted
average of the two positions, the merged track is the concatenation of both
tracks, both source points are deleted, every moved back-reference is
retargeted to the new identifier, and the new identifier is returned. -/
def mergePoints3D (s : Reconstruction) (id1 id2 : Point3DId) :
    Except RecError (Point3DId × Reconstruction) :=
  if id1 = id2 then .error .invalidArgument
  else
    match aget id1 s.points3D, aget id2 s.points3D with
    | some p1, some p2 =>
      let n1 : ℚ := p1.track.length
      let n2 : ℚ := p2.track.length
      let mergedXyz : ℚ × ℚ × ℚ :=
        ((n1 * p1.x + n2 * p2.x) / (n1 + n2),
         (n1 * p1.y + n2 * p2.y) / (n1 + n2),
         (n1 * p1.z + n2 * p2.z) / (n1 + n2))
      let mergedColor : Nat × Nat × Nat :=
        ((p1.color.1 + p2.color.1) / 2, (p1.color.2.1 + p2.color.2.1) / 2,
         (p1.color.2.2 + p2.color.2.2) / 2)
      let mergedTrack := p1.track ++ p2.track
      match deletePoint3D s id1 with
      | .error e => .error e
      | .ok s1 =>
        match deletePoint3D s1 id2 with
        | .error e => .error e
        | .ok s2 => addPoint3D s2 mergedXyz mergedTrack mergedColor
    | _, _ => .error .notFound

/-! ### Operation sequences (for the "after every mutating operation"
invariants of spec §3/§8) -/

/-- One mutating call of the track-and-observation consistency engine
(spec §4.1–4.2).  Added images enter the scene unregistered and with
untriangulated keypoints, as populated from the correspondence database. -/
inductive Op where
  | addCamera (id : CameraId) (cam : Camera)
  | addImage (id : ImageId) (camId : CameraId)
      (pose : (ℚ × ℚ × ℚ × ℚ) × (ℚ × ℚ × ℚ)) (keypoints : List (ℚ × ℚ))
  | addPoint3D (xyz : ℚ × ℚ × ℚ) (track : List TrackElement) (color : Nat × Nat × Nat)
  | addPoint3DWithId (id : Point3DId) (p : Point3D)
  | addObservation (pid : Point3DId) (el : TrackElement)
  | mergePoints3D (id1 id2 : Point3DId)
  | deletePoint3D (id : Point3DId)
  | deleteObservation (id : ImageId) (idx : Point2DIdx)
  | registerImage (id : ImageId)
  | deRegisterImage (id : ImageId)

/-- Execute one operation; a failed call surfaces its error to the caller
and leaves the scene unchanged. -/
def execOp (s : Reconstruction) : Op → Reconstruction
  | .addCamera id cam => runOr s (addCamera s id cam)
  | .addImage id camId pose keypoints =>
      runOr s (addImage s id
        { cameraId := camId, pose := pose, registered := false,
          points2D := keypoints.map fun q => { x := q.1, y := q.2, point3DId := none } })
  | .addPoint3D xyz track color =>
      match addPoint3D s xyz track color with
      | .ok r => r.2
      | .error _ => s
  | .addPoint3DWithId id p => runOr s (addPoint3DWithId s id p)
  | .addObservation pid el => runOr s (addObservation s pid el)
  | .mergePoints3D id1 id2 =>
      match mergePoints3D s id1 id2 with
      | .ok r => r.2
      | .error _ => s
  | .deletePoint3D id => runOr s (deletePoint3D s id)
  | .deleteObservation id idx => runOr s (deleteObservation s id idx)
  | .registerImage id => runOr s (registerImage s id)
  | .deRegisterImage id => runOr s (deRegisterImage s id)

/-- Execute a sequence of operations from a starting scene. -/
def execOps (s : Reconstruction) (ops : List Op) : Reconstruction :=
  ops.foldl execOp s

/-! ### Invariants (spec §3) -/

/-- The bidirectional track/back-reference invariant of spec §3: every
TrackElement of every point names an existing image and a valid slot whose
back-reference is the point's identifier; conversely every linked slot
appears exactly once in the track of the (existing) point it references. -/
def TrackBackRefInv (s : Reconstruction) : Prop :=
  (∀ pid p, aget pid s.points3D = some p → ∀ el ∈ p.track,
      ∃ im, aget el.imageId s.images = some im ∧
        ∃ p2, nth im.points2D el.point2DIdx = some p2 ∧ p2.point3DId = some pid) ∧
  (∀ iid idx p2 pid, point2DAt s iid idx = some p2 → p2.point3DId = some pid →
      ∃ p, aget pid s.points3D = some p ∧ p.track.count ⟨iid, idx⟩ = 1)

/-- The registered-image-sequence invariant of spec §3: the sequence holds
exactly the images whose registration flag is set, without duplicates. -/
def RegListInv (s : Reconstruction) : Prop :=
  (∀ iid ∈ s.regImageIds, ∃ im, aget iid s.images = some im ∧ im.registered = true) ∧
  (∀ iid im, aget iid s.images = some im → im.registered = true → iid ∈ s.regImageIds) ∧
  s.regImageIds.Nodup

/-- The full state invariant maintained by the mutating operations:
duplicate-free registry keys, the bidirectional track/back-reference
invariant, the identifier-generator bound, and the registered-image-sequence
invariant. -/
structure Inv (s : Reconstruction) : Prop where
  camKeys : (akeys s.cameras).Nodup
  imgKeys : (akeys s.images).Nodup
  ptKeys : (akeys s.points3D).Nodup
  fwd : ∀ pid p, aget pid s.points3D = some p → ∀ el ∈ p.track,
      ∃ p2, point2DAt s el.imageId el.point2DIdx = some p2 ∧ p2.point3DId = some pid
  bwd : ∀ iid idx p2 pid, point2DAt s iid idx = some p2 → p2.point3DId = some pid →
      ∃ p, aget pid s.points3D = some p ∧ p.track.count ⟨iid, idx⟩ = 1
  idBound : ∀ pid p, aget pid s.points3D = some p → pid ≤ s.maxPoint3DId
  regMem : ∀ iid ∈ s.regImageIds, ∃ im, aget iid s.images = some im ∧ im.registered = true
  regFlag : ∀ iid im, aget iid s.images = some im → im.registered = true → iid ∈ s.regImageIds
  regNodup : s.regImageIds.Nodup

/-! ### Crop (spec §4.3) -/

/-- Membership of a position in an axis-aligned bounding box given by its
two corner points. -/
def inBox (bbox : (ℚ × ℚ × ℚ) × (ℚ × ℚ × ℚ)) (xyz : ℚ × ℚ × ℚ) : Bool :=
  decide (bbox.1.1 ≤ xyz.1) && decide (xyz.1 ≤ bbox.2.1) &&
  decide (bbox.1.2.1 ≤ xyz.2.1) && decide (xyz.2.1 ≤ bbox.2.2.1) &&
  decide (bbox.1.2.2 ≤ xyz.2.2) && decide (xyz.2.2 ≤ bbox.2.2.2)

/-- Whether a 3D point's position lies inside the bounding box. -/
def pointInBox (bbox : (ℚ × ℚ × ℚ) × (ℚ × ℚ × ℚ)) (p : Point3D) : Bool :=
  inBox bbox (p.x, p.y, p.z)

/-- The 3D points retained by a crop: those inside the bounding box. -/
def cropKeptPoints (s : Reconstruction) (bbox : (ℚ × ℚ × ℚ) × (ℚ × ℚ × ℚ)) :
    List (Point3DId × Point3D) :=
  s.points3D.filter (fun q => pointInBox bbox q.2)

/-- Whether an image observes at least one retained point. -/
def cropObserves (s : Reconstruction) (bbox : (ℚ × ℚ × ℚ) × (ℚ × ℚ × ℚ))
    (iid : ImageId) : Bool :=
  (cropKeptPoints s bbox).any (fun q => q.2.track.any (fun el => decide (el.imageId = iid)))

/-- The images retained by a crop: those observing a retained point. -/
def cropKeptImages (s : Reconstruction) (bbox : (ℚ × ℚ × ℚ) × (ℚ × ℚ × ℚ)) :
    List (ImageId × Image) :=
  s.images.filter (fun q => cropObserves s bbox q.1)

/-- Clearing of a keypoint back-reference that points at a dropped point. -/
def cropFilterBR (s : Reconstruction) (bbox : (ℚ × ℚ × ℚ) × (ℚ × ℚ × ℚ))
    (p2 : Point2D) : Point2D :=
  match p2.point3DId with
  | some pid => if pid ∈ akeys (cropKeptPoints s bbox) then p2 else { p2 with point3DId := none }
  | none => p2

/-- How a retained image is carried into the cropped scene: registered, with
back-references to dropped points cleared. -/
def cropImageTransform (s : Reconstruction) (bbox : (ℚ × ℚ × ℚ) × (ℚ × ℚ × ℚ))
    (im : Image) : Image :=
  { im with registered := true, points2D := im.points2D.map (cropFilterBR s bbox) }

/-- How a retained point is carried into the cropped scene: its track
filtered to observations of retained images. -/
def cropPointTransform (s : Reconstruction) (bbox : (ℚ × ℚ × ℚ) × (ℚ × ℚ × ℚ))
    (p : Point3D) : Point3D :=
  { p with track := p.track.filter (fun el => decide (el.imageId ∈ akeys (cropKeptImages s bbox))) }

/-- Modelled from the spec: `Reconstruction::Crop` (body in
`reconstruction.cc`): returns a new, independent scene containing only the
3D points inside the given axis-aligned box, only the images that observe
at least one retained point, and only the cameras those images reference;
tracks are filtered to retained observations, keypoint back-references to
dropped points are cleared, and the retained images are registered. -/
def crop (s : Reconstruction) (bbox : (ℚ × ℚ × ℚ) × (ℚ × ℚ × ℚ)) : Reconstruction :=
  { cameras := s.cameras.filter (fun c => (cropKeptImages s bbox).any (fun q => decide (q.2.cameraId = c.1))),
    images := (cropKeptImages s bbox).map (fun q => (q.1, cropImageTransform s bbox q.2)),
    points3D := (cropKeptPoints s bbox).map (fun q => (q.1, cropPointTransform s bbox q.2)),
    imagePairStats := [],
    regImageIds := akeys (cropKeptImages s bbox),
    maxPoint3DId := s.maxPoint3DId }

/-! ### Persistence (spec §4.5 / §6)

The binary representation is a count-prefixed sequence of records per
section with variable-length fields prefixed by their length (spec §6).
The little-endian byte layout of one numeric value is abstracted to one
integer token, so a file is a stream of integer tokens. -/

/-- Encode a non-negative integer field. -/
def encNat (n : Nat) : List ℤ := [(n : ℤ)]

/-- Encode a boolean field. -/
def encBool (b : Bool) : List ℤ := [if b then 1 else 0]

/-- Encode an exact rational coordinate as numerator and denominator. -/
def encRat (q : ℚ) : List ℤ := [q.num, (q.den : ℤ)]

/-- Encode an optional identifier; absence is the reserved value `-1`
(the `kInvalidPoint3DId` sentinel of the binary format). -/
def encOptNat (v : Option Nat) : List ℤ :=
  match v with
  | none => [-1]
  | some n => [(n : ℤ)]

/-- Encode a length-prefixed list of records. -/
def encList {α : Type} (f : α → List ℤ) (l : List α) : List ℤ :=
  encNat l.length ++ (l.map f).flatten

/-- Sequencing of one reader with the rest of the record parse. -/
def pbind {α β : Type} (r : Option (α × List ℤ))
    (f : α → List ℤ → Option (β × List ℤ)) : Option (β × List ℤ) :=
  match r with
  | none => none
  | some (a, ts) => f a ts

/-- Read a non-negative integer field. -/
def rdNat : List ℤ → Option (Nat × List ℤ)
  | [] => none
  | t :: r => if 0 ≤ t then some (t.toNat, r) else none

/-- Read a boolean field. -/
def rdBool : List ℤ → Option (Bool × List ℤ)
  | [] => none
  | t :: r => if t = 0 then some (false, r) else if t = 1 then some (true, r) else none

/-- Read a rational coordinate. -/
def rdRat : List ℤ → Option (ℚ × List ℤ)
  | n :: d :: r => if 0 < d then some ((n : ℚ) / (d : ℚ), r) else none
  | _ => none

/-- Read an optional identifier. -/
def rdOptNat : List ℤ → Option (Option Nat × List ℤ)
  | [] => none
  | t :: r => if t < 0 then some (none, r) else some (some t.toNat, r)

/-- Read `n` consecutive records. -/
def rdMany {α : Type} (f : List ℤ → Option (α × List ℤ)) :
    Nat → List ℤ → Option (List α × List ℤ)
  | 0, ts => some ([], ts)
  | n + 1, ts =>
    pbind (f ts) fun a ts1 => pbind (rdMany f n ts1) fun as ts2 => some (a :: as, ts2)

/-- Read a length-prefixed list of records. -/
def rdList {α : Type} (f : List ℤ → Option (α × List ℤ)) (ts : List ℤ) :
    Option (List α × List ℤ) :=
  pbind (rdNat ts) fun n ts1 => rdMany f n ts1

/-- Camera record: model identifier and length-prefixed parameter vector. -/
def encCamera (c : Camera) : List ℤ :=
  encNat c.modelId ++ encList encRat c.params

/-- Read a camera record. -/
def rdCamera (ts : List ℤ) : Option (Camera × List ℤ) :=
  pbind (rdNat ts) fun m ts1 =>
  pbind (rdList rdRat ts1) fun ps ts2 => some ({ modelId := m, params := ps }, ts2)

/-- Keypoint record: pixel coordinates and point back-reference. -/
def encPoint2D (p : Point2D) : List ℤ :=
  encRat p.x ++ encRat p.y ++ encOptNat p.point3DId

/-- Read a keypoint record. -/
def rdPoint2D (ts : List ℤ) : Option (Point2D × List ℤ) :=
  pbind (rdRat ts) fun x ts1 =>
  pbind (rdRat ts1) fun y ts2 =>
  pbind (rdOptNat ts2) fun v ts3 => some ({ x := x, y := y, point3DId := v }, ts3)

/-- Pose record: rotation quaternion and translation. -/
def encPose (p : (ℚ × ℚ × ℚ × ℚ) × (ℚ × ℚ × ℚ)) : List ℤ :=
  encRat p.1.1 ++ encRat p.1.2.1 ++ encRat p.1.2.2.1 ++ encRat p.1.2.2.2 ++
  encRat p.2.1 ++ encRat p.2.2.1 ++ encRat p.2.2.2

/-- Read a pose record. -/
def rdPose (ts : List ℤ) : Option (((ℚ × ℚ × ℚ × ℚ) × (ℚ × ℚ × ℚ)) × List ℤ) :=
  pbind (rdRat ts) fun a ts1 =>
  pbind (rdRat ts1) fun b ts2 =>
  pbind (rdRat ts2) fun c ts3 =>
  pbind (rdRat ts3) fun d ts4 =>
  pbind (rdRat ts4) fun tx ts5 =>
  pbind (rdRat ts5) fun ty ts6 =>
  pbind (rdRat ts6) fun tz ts7 => some (((a, b, c, d), (tx, ty, tz)), ts7)

/-- Image record: camera identifier, pose, registration flag, and the
length-prefixed keypoint list with per-keypoint back-references. -/
def encImage (im : Image) : List ℤ :=
  encNat im.cameraId ++ encPose im.pose ++ encBool im.registered ++
  encList encPoint2D im.points2D

/-- Read an image record. -/
def rdImage (ts : List ℤ) : Option (Image × List ℤ) :=
  pbind (rdNat ts) fun cid ts1 =>
  pbind (rdPose ts1) fun pose ts2 =>
  pbind (rdBool ts2) fun reg ts3 =>
  pbind (rdList rdPoint2D ts3) fun ps ts4 =>
    some ({ cameraId := cid, pose := pose, registered := reg, points2D := ps }, ts4)

/-- Track-element record. -/
def encTrackEl (el : TrackElement) : List ℤ :=
  encNat el.imageId ++ encNat el.point2DIdx

/-- Read a track-element record. -/
def rdTrackEl (ts : List ℤ) : Option (TrackElement × List ℤ) :=
  pbind (rdNat ts) fun i ts1 =>
  pbind (rdNat ts1) fun j ts2 => some (⟨i, j⟩, ts2)

/-- 3D-point record: position, color, error, and the length-prefixed
track. -/
def encPoint3D (p : Point3D) : List ℤ :=
  encRat p.x ++ encRat p.y ++ encRat p.z ++
  encNat p.color.1 ++ encNat p.color.2.1 ++ encNat p.color.2.2 ++
  encRat p.error ++ encList encTrackEl p.track

/-- Read a 3D-point record. -/
def rdPoint3D (ts : List ℤ) : Option (Point3D × List ℤ) :=
  pbind (rdRat ts) fun x ts1 =>
  pbind (rdRat ts1) fun y ts2 =>
  pbind (rdRat ts2) fun z ts3 =>
  pbind (rdNat ts3) fun r ts4 =>
  pbind (rdNat ts4) fun g ts5 =>
  pbind (rdNat ts5) fun b ts6 =>
  pbind (rdRat ts6) fun e ts7 =>
  pbind (rdList rdTrackEl ts7) fun tr ts8 =>
    some ({ x := x, y := y, z := z, color := (r, g, b), error := e, track := tr }, ts8)

/-- Pair-statistic record. -/
def encStat (st : ImagePairStat) : List ℤ :=
  encNat st.numTriCorrs ++ encNat st.numTotalCorrs

/-- Read a pair-statistic record. -/
def rdStat (ts : List ℤ) : Option (ImagePairStat × List ℤ) :=
  pbind (rdNat ts) fun a ts1 =>
  pbind (rdNat ts1) fun b ts2 => some ({ numTriCorrs := a, numTotalCorrs := b }, ts2)

/-- A keyed registry entry: identifier followed by the record. -/
def encEntry {α : Type} (f : α → List ℤ) (e : Nat × α) : List ℤ :=
  encNat e.1 ++ f e.2

/-- Read a keyed registry entry. -/
def rdEntry {α : Type} (f : List ℤ → Option (α × List ℤ)) (ts : List ℤ) :
    Option ((Nat × α) × List ℤ) :=
  pbind (rdNat ts) fun k ts1 =>
  pbind (f ts1) fun v ts2 => some ((k, v), ts2)

/-- Modelled from the spec: the whole-scene binary serialization written by
`Reconstruction::WriteBinary` (body in `reconstruction.cc`): all cameras,
all images with their full keypoint lists and per-keypoint back-references
and registration status, all 3D points with their tracks, the pair
statistics, the registered-image sequence, and the identifier-generator
state, as count-prefixed record sections. -/
def encodeRecon (s : Reconstruction) : List ℤ :=
  encList (encEntry encCamera) s.cameras ++
  encList (encEntry encImage) s.images ++
  encList (encEntry encPoint3D) s.points3D ++
  encList (encEntry encStat) s.imagePairStats ++
  encList encNat s.regImageIds ++
  encNat s.maxPoint3DId

/-- Modelled from the spec: the whole-scene binary deserialization performed
by `Reconstruction::ReadBinary` (body in `reconstruction.cc`); malformed
content is an `InvalidArgument`-style failure, modelled as `none`. -/
def decodeRecon (ts : List ℤ) : Option Reconstruction :=
  (pbind (rdList (rdEntry rdCamera) ts) fun cams ts1 =>
   pbind (rdList (rdEntry rdImage) ts1) fun imgs ts2 =>
   pbind (rdList (rdEntry rdPoint3D) ts2) fun pts ts3 =>
   pbind (rdList (rdEntry rdStat) ts3) fun stats ts4 =>
   pbind (rdList rdNat ts4) fun regs ts5 =>
   pbind (rdNat ts5) fun mid ts6 =>
     if ts6 = [] then
       some ({ cameras := cams, images := imgs, points3D := pts,
               imagePairStats := stats, regImageIds := regs,
               maxPoint3DId := mid }, ts6)
     else none).map Prod.fst

/-- The persisted representations a path can hold: the canonical text
and/or the canonical binary representation (spec §4.5). -/
structure FileStore where
  textData : Option (List ℤ)
  binaryData : Option (List ℤ)

/-- Modelled from the spec: `Reconstruction::WriteBinary` stores the binary
representation of the scene. -/
def writeBinary (s : Reconstruction) (fs : FileStore) : FileStore :=
  { fs with binaryData := some (encodeRecon s) }

/-- Modelled from the spec: `Reconstruction::ReadBinary` reads the binary
representation. -/
def readBinary (fs : FileStore) : Option Reconstruction :=
  fs.binaryData.bind decodeRecon

/-- Modelled from the spec: the dispatching `Reconstruction::Write` writes
the canonical binary representation. -/
def writeRecon (s : Reconstruction) (fs : FileStore) : FileStore :=
  writeBinary s fs

/-- Modelled from the spec: the dispatching `Reconstruction::Read` prefers
the binary representation when it exists and falls back to the text
representation otherwise. -/
def readRecon (fs : FileStore) : Option Reconstruction :=
  match fs.binaryData with
  | some d => decodeRecon d
  | none => fs.textData.bind decodeRecon

/-! ## Theorems -/

/-! ### Association-list lemmas -/

@[simp]
theorem aget_nil {α : Type} (k : Nat) : aget k ([] : List (Nat × α)) = none := rfl

theorem aget_cons {α : Type} (k j : Nat) (v : α) (l : List (Nat × α)) :
    aget k ((j, v) :: l) = if j = k then some v else aget k l := rfl

@[simp]
theorem aget_aset_self {α : Type} (k : Nat) (v : α) (l : List (Nat × α)) :
    aget k (aset k v l) = some v := by
  induction l with
  | nil => simp [aget, aset]
  | cons hd tl ih =>
    obtain ⟨j, w⟩ := hd
    by_cases h : j = k <;> simp [aset, h, aget, ih]

theorem aget_aset_ne {α : Type} {i k : Nat} (h : i ≠ k) (v : α) (l : List (Nat × α)) :
    aget i (aset k v l) = aget i l := by
  have h' : k ≠ i := Ne.symm h
  induction l with
  | nil => simp [aget, aset, h']
  | cons hd tl ih =>
    obtain ⟨j, w⟩ := hd
    by_cases hj : j = k
    · subst hj
      simp [aset, aget, h']
    · simp only [aset, if_neg hj, aget_cons, ih]

@[simp]
theorem aget_aerase_self {α : Type} (k : Nat) (l : List (Nat × α)) :
    aget k (aerase k l) = none := by
  induction l with
  | nil => simp [aerase]
  | cons hd tl ih =>
    obtain ⟨j, w⟩ := hd
    by_cases h : j = k <;> simp [aerase, h, aget, ih]

theorem aget_aerase_ne {α : Type} {i k : Nat} (h : i ≠ k) (l : List (Nat × α)) :
    aget i (aerase k l) = aget i l := by
  have h' : k ≠ i := Ne.symm h
  induction l with
  | nil => simp [aerase]
  | cons hd tl ih =>
    obtain ⟨j, w⟩ := hd
    by_cases hj : j = k
    · subst hj
      simp [aerase, aget, h', ih]
    · simp only [aerase, if_neg hj, aget_cons, ih]

@[simp]
theorem aget_amodify_self {α : Type} (k : Nat) (f : α → α) (l : List (Nat × α)) :
    aget k (amodify k f l) = (aget k l).map f := by
  induction l with
  | nil => simp [aget, amodify]
  | cons hd tl ih =>
    obtain ⟨j, w⟩ := hd
    by_cases h : j = k <;> simp [amodify, h, aget, ih]

theorem aget_amodify_ne {α : Type} {i k : Nat} (h : i ≠ k) (f : α → α) (l : List (Nat × α)) :
    aget i (amodify k f l) = aget i l := by
  have h' : k ≠ i := Ne.symm h
  induction l with
  | nil => simp [amodify]
  | cons hd tl ih =>
    obtain ⟨j, w⟩ := hd
    by_cases hj : j = k
    · subst hj
      simp [amodify, aget, h']
    · simp only [amodify, if_neg hj, aget_cons, ih]

@[simp]
theorem akeys_amodify {α : Type} (k : Nat) (f : α → α) (l : List (Nat × α)) :
    akeys (amodify k f l) = akeys l := by
  induction l with
  | nil => rfl
  | cons hd tl ih =>
    obtain ⟨j, w⟩ := hd
    by_cases h : j = k
    · simp [amodify, h, akeys]
    · simp [amodify, h, akeys] at ih ⊢
      exact ih

theorem aget_isSome_iff_mem_akeys {α : Type} (k : Nat) (l : List (Nat × α)) :
    (aget k l).isSome = true ↔ k ∈ akeys l := by
  induction l with
  | nil => simp [akeys]
  | cons hd tl ih =>
    obtain ⟨j, w⟩ := hd
    by_cases h : j = k
    · simp [aget, akeys, h]
    · have h' : k ≠ j := Ne.symm h
      simp [aget, akeys, h, h', ih]

theorem aget_mem {α : Type} {k : Nat} {v : α} {l : List (Nat × α)}
    (h : aget k l = some v) : (k, v) ∈ l := by
  induction l with
  | nil => simp [aget] at h
  | cons hd tl ih =>
    obtain ⟨j, w⟩ := hd
    by_cases hj : j = k
    · subst hj
      simp [aget] at h
      simp [h]
    · simp [aget, hj] at h
      exact List.mem_cons_of_mem _ (ih h)

theorem aget_eq_of_mem {α : Type} {k : Nat} {v : α} {l : List (Nat × α)}
    (hnd : (akeys l).Nodup) (h : (k, v) ∈ l) : aget k l = some v := by
  induction l with
  | nil => simp at h
  | cons hd tl ih =>
    obtain ⟨j, w⟩ := hd
    simp only [akeys, List.map_cons, List.nodup_cons] at hnd
    rcases List.mem_cons.mp h with h1 | h1
    · rw [Prod.mk.injEq] at h1
      obtain ⟨hk, hv⟩ := h1
      subst hk
      subst hv
      simp [aget]
    · by_cases hj : j = k
      · subst hj
        exact absurd (List.mem_map.mpr ⟨(j, v), h1, rfl⟩) hnd.1
      · simp only [aget_cons, if_neg hj]
        exact ih hnd.2 h1

theorem mem_akeys_aset {α : Type} (i k : Nat) (v : α) (l : List (Nat × α)) :
    i ∈ akeys (aset k v l) ↔ i ∈ akeys l ∨ i = k := by
  induction l with
  | nil => simp [aset, akeys]
  | cons hd tl ih =>
    obtain ⟨j, w⟩ := hd
    by_cases h : j = k <;> simp [aset, h, akeys] at ih ⊢ <;> tauto

theorem akeys_aset_nodup {α : Type} {k : Nat} {l : List (Nat × α)}
    (hnd : (akeys l).Nodup) (v : α) : (akeys (aset k v l)).Nodup := by
  induction l with
  | nil => simp [aset, akeys]
  | cons hd tl ih =>
    obtain ⟨j, w⟩ := hd
    simp only [akeys, List.map_cons, List.nodup_cons] at hnd
    by_cases h : j = k
    · subst h
      have hset : aset j v ((j, w) :: tl) = (j, v) :: tl := by simp [aset]
      rw [hset]
      simp only [akeys, List.map_cons, List.nodup_cons]
      exact ⟨hnd.1, hnd.2⟩
    · simp only [aset, if_neg h, akeys, List.map_cons, List.nodup_cons]
      constructor
      · intro hc
        rcases (mem_akeys_aset j k v tl).mp hc with h1 | h1
        · exact hnd.1 h1
        · exact h h1
      · exact ih hnd.2

theorem akeys_aerase_sublist {α : Type} (k : Nat) (l : List (Nat × α)) :
    (akeys (aerase k l)).Sublist (akeys l) := by
  induction l with
  | nil => simp [aerase]
  | cons hd tl ih =>
    obtain ⟨j, w⟩ := hd
    by_cases h : j = k
    · simp only [aerase, if_pos h, akeys, List.map_cons]
      exact ih.trans (List.sublist_cons_self _ _)
    · simp only [aerase, if_neg h, akeys, List.map_cons]
      exact ih.cons₂ _

theorem akeys_aerase_nodup {α : Type} {k : Nat} {l : List (Nat × α)}
    (hnd : (akeys l).Nodup) : (akeys (aerase k l)).Nodup :=
  hnd.sublist (akeys_aerase_sublist k l)

/-! ### Indexed-list lemmas -/

@[simp]
theorem length_setNth {α : Type} (f : α → α) (l : List α) (i : Nat) :
    (setNth f l i).length = l.length := by
  induction l generalizing i with
  | nil => rfl
  | cons a l ih =>
    cases i with
    | zero => simp [setNth]
    | succ n => simp [setNth, ih]

theorem nth_setNth {α : Type} (f : α → α) (l : List α) (i j : Nat) :
    nth (setNth f l i) j = if i = j then (nth l j).map f else nth l j := by
  induction l generalizing i j with
  | nil => simp [setNth, nth]
  | cons a l ih =>
    cases i with
    | zero =>
      cases j with
      | zero => simp [setNth, nth]
      | succ m => simp [setNth, nth]
    | succ n =>
      cases j with
      | zero => simp [setNth, nth]
      | succ m => simpa [setNth, nth, Nat.succ_inj] using ih n m

theorem nth_mem {α : Type} {l : List α} {i : Nat} {a : α}
    (h : nth l i = some a) : a ∈ l := by
  induction l generalizing i with
  | nil => simp [nth] at h
  | cons b l ih =>
    cases i with
    | zero =>
      simp [nth] at h
      simp [h]
    | succ n =>
      simp only [nth] at h
      exact List.mem_cons_of_mem _ (ih h)

/-! ### Frame lemmas for the primitive state updates -/

theorem updateImage_only_images (id : ImageId) (f : Image → Image) (s : Reconstruction) :
    updateImage id f s = { s with images := (updateImage id f s).images } := rfl

@[simp]
theorem updateImage_points3D (id : ImageId) (f : Image → Image) (s : Reconstruction) :
    (updateImage id f s).points3D = s.points3D := rfl

@[simp]
theorem updateImage_regImageIds (id : ImageId) (f : Image → Image) (s : Reconstruction) :
    (updateImage id f s).regImageIds = s.regImageIds := rfl

@[simp]
theorem updateImage_maxPoint3DId (id : ImageId) (f : Image → Image) (s : Reconstruction) :
    (updateImage id f s).maxPoint3DId = s.maxPoint3DId := rfl

@[simp]
theorem updateImage_cameras (id : ImageId) (f : Image → Image) (s : Reconstruction) :
    (updateImage id f s).cameras = s.cameras := rfl

@[simp]
theorem akeys_updateImage (id : ImageId) (f : Image → Image) (s : Reconstruction) :
    akeys (updateImage id f s).images = akeys s.images :=
  akeys_amodify id f s.images

theorem aget_updateImage_self (id : ImageId) (f : Image → Image) (s : Reconstruction) :
    aget id (updateImage id f s).images = (aget id s.images).map f :=
  aget_amodify_self id f s.images

theorem aget_updateImage_ne {i id : ImageId} (h : i ≠ id) (f : Image → Image)
    (s : Reconstruction) : aget i (updateImage id f s).images = aget i s.images :=
  aget_amodify_ne h f s.images

@[simp]
theorem updatePoint_images (pid : Point3DId) (f : Point3D → Point3D) (s : Reconstruction) :
    (updatePoint pid f s).images = s.images := rfl

@[simp]
theorem updatePoint_regImageIds (pid : Point3DId) (f : Point3D → Point3D) (s : Reconstruction) :
    (updatePoint pid f s).regImageIds = s.regImageIds := rfl

@[simp]
theorem updatePoint_maxPoint3DId (pid : Point3DId) (f : Point3D → Point3D) (s : Reconstruction) :
    (updatePoint pid f s).maxPoint3DId = s.maxPoint3DId := rfl

@[simp]
theorem updatePoint_cameras (pid : Point3DId) (f : Point3D → Point3D) (s : Reconstruction) :
    (updatePoint pid f s).cameras = s.cameras := rfl

@[simp]
theorem akeys_updatePoint (pid : Point3DId) (f : Point3D → Point3D) (s : Reconstruction) :
    akeys (updatePoint pid f s).points3D = akeys s.points3D :=
  akeys_amodify pid f s.points3D

theorem aget_updatePoint_self (pid : Point3DId) (f : Point3D → Point3D) (s : Reconstruction) :
    aget pid (updatePoint pid f s).points3D = (aget pid s.points3D).map f :=
  aget_amodify_self pid f s.points3D

theorem aget_updatePoint_ne {i pid : Point3DId} (h : i ≠ pid) (f : Point3D → Point3D)
    (s : Reconstruction) : aget i (updatePoint pid f s).points3D = aget i s.points3D :=
  aget_amodify_ne h f s.points3D

theorem point2DAt_updatePoint (pid : Point3DId) (f : Point3D → Point3D) (s : Reconstruction)
    (iid : ImageId) (idx : Point2DIdx) :
    point2DAt (updatePoint pid f s) iid idx = point2DAt s iid idx := rfl

/-! ### `setBR` lemmas -/

@[simp]
theorem setBR_points3D (s : Reconstruction) (id : ImageId) (idx : Point2DIdx)
    (v : Option Point3DId) : (setBR s id idx v).points3D = s.points3D := rfl

@[simp]
theorem setBR_regImageIds (s : Reconstruction) (id : ImageId) (idx : Point2DIdx)
    (v : Option Point3DId) : (setBR s id idx v).regImageIds = s.regImageIds := rfl

@[simp]
theorem setBR_maxPoint3DId (s : Reconstruction) (id : ImageId) (idx : Point2DIdx)
    (v : Option Point3DId) : (setBR s id idx v).maxPoint3DId = s.maxPoint3DId := rfl

@[simp]
theorem setBR_cameras (s : Reconstruction) (id : ImageId) (idx : Point2DIdx)
    (v : Option Point3DId) : (setBR s id idx v).cameras = s.cameras := rfl

@[simp]
theorem akeys_setBR_images (s : Reconstruction) (id : ImageId) (idx : Point2DIdx)
    (v : Option Point3DId) : akeys (setBR s id idx v).images = akeys s.images :=
  akeys_amodify ..

theorem registered_setBR (s : Reconstruction) (id : ImageId) (idx : Point2DIdx)
    (v : Option Point3DId) (i : ImageId) :
    (aget i (setBR s id idx v).images).map Image.registered =
    (aget i s.images).map Image.registered := by
  by_cases h : i = id
  · subst h
    rw [setBR, aget_updateImage_self]
    cases aget i s.images <;> rfl
  · rw [setBR, aget_updateImage_ne h]

theorem point2DAt_setBR_self (s : Reconstruction) (id : ImageId) (idx : Point2DIdx)
    (v : Option Point3DId) :
    point2DAt (setBR s id idx v) id idx =
    (point2DAt s id idx).map (fun p2 => { p2 with point3DId := v }) := by
  simp only [point2DAt, setBR]
  rw [aget_updateImage_self]
  cases aget id s.images with
  | none => rfl
  | some im =>
    show nth (setNth (fun p2 => { p2 with point3DId := v }) im.points2D idx) idx =
      (nth im.points2D idx).map (fun p2 => { p2 with point3DId := v })
    rw [nth_setNth]
    simp

theorem point2DAt_setBR_ne {iid : ImageId} {jdx : Point2DIdx} (s : Reconstruction)
    {id : ImageId} {idx : Point2DIdx} (h : ¬(iid = id ∧ jdx = idx))
    (v : Option Point3DId) :
    point2DAt (setBR s id idx v) iid jdx = point2DAt s iid jdx := by
  by_cases hi : iid = id
  · subst hi
    have hj : jdx ≠ idx := fun hh => h ⟨rfl, hh⟩
    simp only [point2DAt, setBR]
    rw [aget_updateImage_self]
    cases aget iid s.images with
    | none => rfl
    | some im =>
      show nth (setNth (fun p2 => { p2 with point3DId := v }) im.points2D idx) jdx =
        nth im.points2D jdx
      rw [nth_setNth, if_neg (Ne.symm hj)]
  · simp only [point2DAt, setBR]
    rw [aget_updateImage_ne hi]

/-! ### Lemmas about back-reference folds over tracks -/

theorem foldSetBR_point2DAt (v : Option Point3DId) (track : List TrackElement)
    (s : Reconstruction) (iid : ImageId) (jdx : Point2DIdx) :
    point2DAt (track.foldl (fun acc el => setBR acc el.imageId el.point2DIdx v) s) iid jdx =
    if (⟨iid, jdx⟩ : TrackElement) ∈ track then
      (point2DAt s iid jdx).map (fun p2 => { p2 with point3DId := v })
    else point2DAt s iid jdx := by
  induction track generalizing s with
  | nil => simp
  | cons el rest ih =>
    rw [List.foldl_cons, ih]
    by_cases hmem : (⟨iid, jdx⟩ : TrackElement) ∈ rest
    · rw [if_pos hmem, if_pos (List.mem_cons_of_mem el hmem)]
      by_cases hel : el = ⟨iid, jdx⟩
      · subst hel
        rw [point2DAt_setBR_self]
        cases point2DAt s iid jdx <;> rfl
      · rw [point2DAt_setBR_ne]
        intro hc
        exact hel (by cases el; simp_all)
    · rw [if_neg hmem]
      by_cases hel : el = ⟨iid, jdx⟩
      · subst hel
        rw [point2DAt_setBR_self, if_pos (List.mem_cons_self _ _)]
      · rw [point2DAt_setBR_ne, if_neg (fun hc => (List.mem_cons.mp hc).elim (fun hh => hel hh.symm) hmem)]
        intro hc
        exact hel (by cases el; simp_all)

theorem foldSetBR_only_images (v : Option Point3DId) (track : List TrackElement)
    (s : Reconstruction) :
    track.foldl (fun acc el => setBR acc el.imageId el.point2DIdx v) s =
    { s with images := (track.foldl (fun acc el => setBR acc el.imageId el.point2DIdx v) s).images } := by
  induction track generalizing s with
  | nil => rfl
  | cons el rest ih =>
    rw [List.foldl_cons, ih]
    rfl

theorem foldSetBR_akeys_images (v : Option Point3DId) (track : List TrackElement)
    (s : Reconstruction) :
    akeys (track.foldl (fun acc el => setBR acc el.imageId el.point2DIdx v) s).images =
    akeys s.images := by
  induction track generalizing s with
  | nil => rfl
  | cons el rest ih =>
    rw [List.foldl_cons, ih, akeys_setBR_images]

theorem foldSetBR_registered (v : Option Point3DId) (track : List TrackElement)
    (s : Reconstruction) (i : ImageId) :
    (aget i (track.foldl (fun acc el => setBR acc el.imageId el.point2DIdx v) s).images).map
      Image.registered = (aget i s.images).map Image.registered := by
  induction track generalizing s with
  | nil => rfl
  | cons el rest ih =>
    rw [List.foldl_cons, ih, registered_setBR]

theorem setTrackBRs_point2DAt (track : List TrackElement) (pid : Point3DId)
    (s : Reconstruction) (iid : ImageId) (jdx : Point2DIdx) :
    point2DAt (setTrackBRs track pid s) iid jdx =
    if (⟨iid, jdx⟩ : TrackElement) ∈ track then
      (point2DAt s iid jdx).map (fun p2 => { p2 with point3DId := some pid })
    else point2DAt s iid jdx :=
  foldSetBR_point2DAt (some pid) track s iid jdx

theorem clearTrackBRs_point2DAt (track : List TrackElement)
    (s : Reconstruction) (iid : ImageId) (jdx : Point2DIdx) :
    point2DAt (clearTrackBRs track s) iid jdx =
    if (⟨iid, jdx⟩ : TrackElement) ∈ track then
      (point2DAt s iid jdx).map (fun p2 => { p2 with point3DId := none })
    else point2DAt s iid jdx :=
  foldSetBR_point2DAt none track s iid jdx

/-! ### Frame lemmas for the pair-statistics updates -/

theorem incTriCorr_only_stats (s : Reconstruction) (k : ImagePairId) :
    incTriCorr s k = { s with imagePairStats := (incTriCorr s k).imagePairStats } := rfl

theorem decTriCorr_only_stats (s : Reconstruction) (k : ImagePairId) :
    decTriCorr s k = { s with imagePairStats := (decTriCorr s k).imagePairStats } := rfl

theorem incPairsWith_only_stats (el : TrackElement) (tr : List TrackElement)
    (s : Reconstruction) :
    incPairsWith el tr s = { s with imagePairStats := (incPairsWith el tr s).imagePairStats } := by
  induction tr generalizing s with
  | nil => rfl
  | cons o r ih =>
    rw [incPairsWith, List.foldl_cons, ← incPairsWith, ih]
    rfl

theorem decPairsWith_only_stats (el : TrackElement) (tr : List TrackElement)
    (s : Reconstruction) :
    decPairsWith el tr s = { s with imagePairStats := (decPairsWith el tr s).imagePairStats } := by
  induction tr generalizing s with
  | nil => rfl
  | cons o r ih =>
    rw [decPairsWith, List.foldl_cons, ← decPairsWith, ih]
    rfl

theorem decPairsOfTrack_only_stats (tr : List TrackElement) (s : Reconstruction) :
    decPairsOfTrack tr s = { s with imagePairStats := (decPairsOfTrack tr s).imagePairStats } := by
  induction tr generalizing s with
  | nil => rfl
  | cons o r ih =>
    rw [decPairsOfTrack, ih, decPairsWith_only_stats o r s]

/-! ### Consequences of the invariant -/

theorem Inv.track_count_one {s : Reconstruction} (h : Inv s) {pid : Point3DId}
    {p : Point3D} (hp : aget pid s.points3D = some p) {el : TrackElement}
    (hel : el ∈ p.track) : p.track.count el = 1 := by
  obtain ⟨p2, hp2, hbr⟩ := h.fwd pid p hp el hel
  obtain ⟨q, hq, hcount⟩ := h.bwd el.imageId el.point2DIdx p2 pid hp2 hbr
  rw [hp] at hq
  injection hq with hq
  subst hq
  exact hcount

theorem Inv.track_nodup {s : Reconstruction} (h : Inv s) {pid : Point3DId}
    {p : Point3D} (hp : aget pid s.points3D = some p) : p.track.Nodup := by
  rw [List.nodup_iff_count_le_one]
  intro el
  by_cases hel : el ∈ p.track
  · rw [h.track_count_one hp hel]
  · rw [List.count_eq_zero_of_not_mem hel]
    exact Nat.zero_le 1

theorem Inv.track_disjoint {s : Reconstruction} (h : Inv s) {pid qid : Point3DId}
    {p q : Point3D} (hp : aget pid s.points3D = some p)
    (hq : aget qid s.points3D = some q) (hne : pid ≠ qid) :
    ∀ el ∈ p.track, el ∉ q.track := by
  intro el hep heq
  obtain ⟨p2, hp2, hbr⟩ := h.fwd pid p hp el hep
  obtain ⟨p2', hp2', hbr'⟩ := h.fwd qid q hq el heq
  rw [hp2] at hp2'
  injection hp2' with hp2'
  subst hp2'
  rw [hbr] at hbr'
  injection hbr' with hbr'
  exact hne hbr'

theorem Inv.slot_to_track {s : Reconstruction} (h : Inv s) {iid : ImageId}
    {idx : Point2DIdx} {p2 : Point2D} {pid : Point3DId}
    (hp2 : point2DAt s iid idx = some p2) (hbr : p2.point3DId = some pid) :
    ∃ p, aget pid s.points3D = some p ∧ (⟨iid, idx⟩ : TrackElement) ∈ p.track := by
  obtain ⟨p, hp, hcount⟩ := h.bwd iid idx p2 pid hp2 hbr
  refine ⟨p, hp, ?_⟩
  by_contra hmem
  rw [List.count_eq_zero_of_not_mem hmem] at hcount
  exact Nat.zero_ne_one hcount

theorem Inv.fwd_nth {s : Reconstruction} (h : Inv s) {pid : Point3DId}
    {p : Point3D} (hp : aget pid s.points3D = some p) {el : TrackElement}
    (hel : el ∈ p.track) :
    ∃ im, aget el.imageId s.images = some im ∧
      ∃ p2, nth im.points2D el.point2DIdx = some p2 ∧ p2.point3DId = some pid := by
  obtain ⟨p2, hp2, hbr⟩ := h.fwd pid p hp el hel
  rw [point2DAt] at hp2
  cases him : aget el.imageId s.images with
  | none => rw [him] at hp2; exact Option.noConfusion hp2
  | some im =>
    rw [him] at hp2
    exact ⟨im, rfl, p2, hp2, hbr⟩

/-! ### Behavior and invariant preservation of each operation -/

theorem addCamera_ok {s : Reconstruction} {id : CameraId} {cam : Camera}
    {t : Reconstruction} (hok : addCamera s id cam = .ok t) :
    existsCamera s id = false ∧ t = { s with cameras := aset id cam s.cameras } := by
  unfold addCamera at hok
  split at hok
  · exact Except.noConfusion hok
  · injection hok with h1
    subst h1
    simp_all

theorem inv_addCamera {s : Reconstruction} (h : Inv s) {id : CameraId} {cam : Camera}
    {t : Reconstruction} (hok : addCamera s id cam = .ok t) : Inv t := by
  obtain ⟨-, rfl⟩ := addCamera_ok hok
  exact ⟨akeys_aset_nodup h.camKeys cam, h.imgKeys, h.ptKeys, h.fwd, h.bwd,
    h.idBound, h.regMem, h.regFlag, h.regNodup⟩

theorem addImage_ok {s : Reconstruction} {id : ImageId} {im : Image}
    {t : Reconstruction} (hok : addImage s id im = .ok t) :
    existsCamera s im.cameraId = true ∧ existsImage s id = false ∧
    t = { s with images := aset id im s.images } := by
  unfold addImage at hok
  split at hok
  · exact Except.noConfusion hok
  · split at hok
    · exact Except.noConfusion hok
    · injection hok with h1
      subst h1
      simp_all

/-- Invariant preservation for adding an image whose keypoint slots are all
untriangulated and whose registration flag is clear (how images enter the
scene from the correspondence database). -/
theorem inv_addImage {s : Reconstruction} (h : Inv s) {id : ImageId} {im : Image}
    (hbr : ∀ p2 ∈ im.points2D, p2.point3DId = none) (hreg : im.registered = false)
    {t : Reconstruction} (hok : addImage s id im = .ok t) : Inv t := by
  obtain ⟨-, hnew, rfl⟩ := addImage_ok hok
  have hget : aget id s.images = none := by
    cases hg : aget id s.images with
    | none => rfl
    | some w => rw [existsImage, hg] at hnew; exact Bool.noConfusion hnew
  have hpt2 : ∀ iid idx, point2DAt { s with images := aset id im s.images } iid idx =
      if iid = id then nth im.points2D idx else point2DAt s iid idx := by
    intro iid idx
    by_cases hi : iid = id
    · subst hi
      rw [if_pos rfl, point2DAt]
      show (aget iid (aset iid im s.images)).bind _ = _
      rw [aget_aset_self]
      rfl
    · rw [if_neg hi, point2DAt, point2DAt]
      show (aget iid (aset id im s.images)).bind _ = _
      rw [aget_aset_ne hi]
  refine ⟨h.camKeys, akeys_aset_nodup h.imgKeys im, h.ptKeys, ?_, ?_, h.idBound, ?_, ?_, h.regNodup⟩
  · intro pid p hp el hel
    obtain ⟨p2, hp2, hbr2⟩ := h.fwd pid p hp el hel
    refine ⟨p2, ?_, hbr2⟩
    rw [hpt2]
    have hne : el.imageId ≠ id := by
      intro hc
      rw [point2DAt, hc, hget] at hp2
      exact Option.noConfusion hp2
    rw [if_neg hne]
    exact hp2
  · intro iid idx p2 pid hp2 hbr2
    rw [hpt2] at hp2
    by_cases hi : iid = id
    · rw [if_pos hi] at hp2
      rw [hbr (p2) (nth_mem hp2)] at hbr2
      exact Option.noConfusion hbr2
    · rw [if_neg hi] at hp2
      exact h.bwd iid idx p2 pid hp2 hbr2
  · intro iid hmem
    obtain ⟨im', him', hreg'⟩ := h.regMem iid hmem
    refine ⟨im', ?_, hreg'⟩
    show aget iid (aset id im s.images) = some im'
    have hne : iid ≠ id := by
      intro hc
      rw [hc, hget] at him'
      exact Option.noConfusion him'
    rw [aget_aset_ne hne]
    exact him'
  · intro iid im' him' hreg'
    have him2 : aget iid (aset id im s.images) = some im' := him'
    by_cases hi : iid = id
    · subst hi
      rw [aget_aset_self] at him2
      injection him2 with him2
      subst him2
      rw [hreg] at hreg'
      exact Bool.noConfusion hreg'
    · rw [aget_aset_ne hi] at him2
      show iid ∈ s.regImageIds
      exact h.regFlag iid im' him2 hreg'

theorem setTrackBRs_points3D (tr : List TrackElement) (pid : Point3DId) (s : Reconstruction) :
    (setTrackBRs tr pid s).points3D = s.points3D := by
  rw [setTrackBRs, foldSetBR_only_images]

theorem setTrackBRs_regImageIds (tr : List TrackElement) (pid : Point3DId) (s : Reconstruction) :
    (setTrackBRs tr pid s).regImageIds = s.regImageIds := by
  rw [setTrackBRs, foldSetBR_only_images]

theorem setTrackBRs_maxPoint3DId (tr : List TrackElement) (pid : Point3DId) (s : Reconstruction) :
    (setTrackBRs tr pid s).maxPoint3DId = s.maxPoint3DId := by
  rw [setTrackBRs, foldSetBR_only_images]

theorem setTrackBRs_cameras (tr : List TrackElement) (pid : Point3DId) (s : Reconstruction) :
    (setTrackBRs tr pid s).cameras = s.cameras := by
  rw [setTrackBRs, foldSetBR_only_images]

theorem setTrackBRs_akeys_images (tr : List TrackElement) (pid : Point3DId) (s : Reconstruction) :
    akeys (setTrackBRs tr pid s).images = akeys s.images :=
  foldSetBR_akeys_images (some pid) tr s

theorem setTrackBRs_registered (tr : List TrackElement) (pid : Point3DId) (s : Reconstruction)
    (i : ImageId) :
    (aget i (setTrackBRs tr pid s).images).map Image.registered =
    (aget i s.images).map Image.registered :=
  foldSetBR_registered (some pid) tr s i

theorem clearTrackBRs_points3D (tr : List TrackElement) (s : Reconstruction) :
    (clearTrackBRs tr s).points3D = s.points3D := by
  rw [clearTrackBRs, foldSetBR_only_images]

theorem clearTrackBRs_regImageIds (tr : List TrackElement) (s : Reconstruction) :
    (clearTrackBRs tr s).regImageIds = s.regImageIds := by
  rw [clearTrackBRs, foldSetBR_only_images]

theorem clearTrackBRs_maxPoint3DId (tr : List TrackElement) (s : Reconstruction) :
    (clearTrackBRs tr s).maxPoint3DId = s.maxPoint3DId := by
  rw [clearTrackBRs, foldSetBR_only_images]

theorem clearTrackBRs_cameras (tr : List TrackElement) (s : Reconstruction) :
    (clearTrackBRs tr s).cameras = s.cameras := by
  rw [clearTrackBRs, foldSetBR_only_images]

theorem clearTrackBRs_akeys_images (tr : List TrackElement) (s : Reconstruction) :
    akeys (clearTrackBRs tr s).images = akeys s.images :=
  foldSetBR_akeys_images none tr s

theorem clearTrackBRs_registered (tr : List TrackElement) (s : Reconstruction) (i : ImageId) :
    (aget i (clearTrackBRs tr s).images).map Image.registered =
    (aget i s.images).map Image.registered :=
  foldSetBR_registered none tr s i

theorem slotFree_iff {s : Reconstruction} {el : TrackElement} :
    slotFree s el = true ↔
    ∃ p2, point2DAt s el.imageId el.point2DIdx = some p2 ∧ p2.point3DId = none := by
  unfold slotFree
  cases h : point2DAt s el.imageId el.point2DIdx with
  | none => simp
  | some p2 => simp [Option.isNone_iff_eq_none]

theorem addPoint3D_of_addable {s : Reconstruction} (h : trackAddable s track)
    (xyz : ℚ × ℚ × ℚ) (color : Nat × Nat × Nat) :
    addPoint3D s xyz track color = .ok (s.maxPoint3DId + 1,
      { setTrackBRs track (s.maxPoint3DId + 1) s with
        points3D := aset (s.maxPoint3DId + 1)
          { x := xyz.1, y := xyz.2.1, z := xyz.2.2, color := color, error := -1, track := track }
          (setTrackBRs track (s.maxPoint3DId + 1) s).points3D,
        maxPoint3DId := s.maxPoint3DId + 1 }) := by
  unfold addPoint3D
  rw [if_pos h]

theorem addPoint3D_ok {s : Reconstruction} {xyz : ℚ × ℚ × ℚ} {track : List TrackElement}
    {color : Nat × Nat × Nat} {nid : Point3DId} {t : Reconstruction}
    (hok : addPoint3D s xyz track color = .ok (nid, t)) :
    trackAddable s track ∧ nid = s.maxPoint3DId + 1 ∧
    t = { setTrackBRs track (s.maxPoint3DId + 1) s with
          points3D := aset (s.maxPoint3DId + 1)
            { x := xyz.1, y := xyz.2.1, z := xyz.2.2, color := color, error := -1, track := track }
            (setTrackBRs track (s.maxPoint3DId + 1) s).points3D,
          maxPoint3DId := s.maxPoint3DId + 1 } := by
  unfold addPoint3D at hok
  split at hok
  case isTrue hadd =>
    simp only [Except.ok.injEq, Prod.mk.injEq] at hok
    exact ⟨hadd, hok.1.symm, hok.2.symm⟩
  case isFalse => exact Except.noConfusion hok

theorem inv_addPoint3D {s : Reconstruction} (h : Inv s) {xyz : ℚ × ℚ × ℚ}
    {track : List TrackElement} {color : Nat × Nat × Nat} {nid : Point3DId}
    {t : Reconstruction} (hok : addPoint3D s xyz track color = .ok (nid, t)) : Inv t := by
  obtain ⟨⟨hnd, hfree⟩, hnid, ht⟩ := addPoint3D_ok hok
  subst ht
  set N := s.maxPoint3DId + 1 with hN
  set newPt : Point3D :=
    { x := xyz.1, y := xyz.2.1, z := xyz.2.2, color := color, error := -1, track := track }
    with hnewPt
  have hpts : ∀ (pid : Point3DId), aget pid (aset N newPt (setTrackBRs track N s).points3D) =
      aget pid (aset N newPt s.points3D) := by
    intro pid
    rw [setTrackBRs_points3D]
  have hpt2 : ∀ iid jdx, point2DAt (setTrackBRs track N s) iid jdx =
      if (⟨iid, jdx⟩ : TrackElement) ∈ track then
        (point2DAt s iid jdx).map (fun p2 => { p2 with point3DId := some N })
      else point2DAt s iid jdx := fun iid jdx => setTrackBRs_point2DAt track N s iid jdx
  constructor
  case camKeys =>
    show (akeys (setTrackBRs track N s).cameras).Nodup
    rw [setTrackBRs_cameras]
    exact h.camKeys
  case imgKeys =>
    show (akeys (setTrackBRs track N s).images).Nodup
    rw [setTrackBRs_akeys_images]
    exact h.imgKeys
  case ptKeys =>
    show (akeys (aset N newPt (setTrackBRs track N s).points3D)).Nodup
    rw [setTrackBRs_points3D]
    exact akeys_aset_nodup h.ptKeys newPt
  case fwd =>
    intro pid p hp el hel
    obtain ⟨a, b⟩ := el
    have hp1 : aget pid (aset N newPt (setTrackBRs track N s).points3D) = some p := hp
    rw [hpts] at hp1
    show ∃ p2, point2DAt (setTrackBRs track N s) a b = some p2 ∧ p2.point3DId = some pid
    rw [hpt2]
    by_cases hpid : pid = N
    · subst hpid
      rw [aget_aset_self] at hp1
      injection hp1 with hp1
      subst hp1
      have hmem : (⟨a, b⟩ : TrackElement) ∈ track := hel
      rw [if_pos hmem]
      obtain ⟨p2, hp2, -⟩ := slotFree_iff.mp (hfree _ hmem)
      rw [hp2]
      exact ⟨_, rfl, rfl⟩
    · rw [aget_aset_ne hpid] at hp1
      obtain ⟨p2, hp2, hbr⟩ := h.fwd pid p hp1 ⟨a, b⟩ hel
      have hnotmem : (⟨a, b⟩ : TrackElement) ∉ track := by
        intro hmem
        obtain ⟨p2', hp2', hnone⟩ := slotFree_iff.mp (hfree _ hmem)
        rw [hp2] at hp2'
        injection hp2' with hp2'
        subst hp2'
        rw [hnone] at hbr
        exact Option.noConfusion hbr
      rw [if_neg hnotmem]
      exact ⟨p2, hp2, hbr⟩
  case bwd =>
    intro iid idx p2 pid hp2 hbr
    have hp2' : point2DAt (setTrackBRs track N s) iid idx = some p2 := hp2
    rw [hpt2] at hp2'
    show ∃ p, aget pid (aset N newPt (setTrackBRs track N s).points3D) = some p ∧
      p.track.count ⟨iid, idx⟩ = 1
    rw [hpts]
    by_cases hmem : (⟨iid, idx⟩ : TrackElement) ∈ track
    · rw [if_pos hmem] at hp2'
      cases hold : point2DAt s iid idx with
      | none => rw [hold] at hp2'; exact Option.noConfusion hp2'
      | some q2 =>
        rw [hold] at hp2'
        injection hp2' with hp2'
        subst hp2'
        injection hbr with hbr
        refine ⟨newPt, ?_, ?_⟩
        · rw [← hbr, aget_aset_self]
        · show track.count ⟨iid, idx⟩ = 1
          exact List.count_eq_one_of_mem hnd hmem
    · rw [if_neg hmem] at hp2'
      obtain ⟨p, hp3, hcount⟩ := h.bwd iid idx p2 pid hp2' hbr
      have hlt : pid ≠ N := Nat.ne_of_lt (Nat.lt_succ_of_le (h.idBound pid p hp3))
      rw [aget_aset_ne hlt]
      exact ⟨p, hp3, hcount⟩
  case idBound =>
    intro pid p hp
    have hp1 : aget pid (aset N newPt (setTrackBRs track N s).points3D) = some p := hp
    rw [hpts] at hp1
    show pid ≤ N
    by_cases hpid : pid = N
    · exact hpid.le
    · rw [aget_aset_ne hpid] at hp1
      exact Nat.le_succ_of_le (h.idBound pid p hp1)
  case regMem =>
    intro iid hmem
    have hmem' : iid ∈ s.regImageIds := by
      have h0 : iid ∈ (setTrackBRs track N s).regImageIds := hmem
      rwa [setTrackBRs_regImageIds] at h0
    obtain ⟨im, him, hregt⟩ := h.regMem iid hmem'
    have hmap := setTrackBRs_registered track N s iid
    rw [him] at hmap
    show ∃ im', aget iid (setTrackBRs track N s).images = some im' ∧ im'.registered = true
    cases hai : aget iid (setTrackBRs track N s).images with
    | none => rw [hai] at hmap; exact Option.noConfusion hmap
    | some im' =>
      rw [hai] at hmap
      injection hmap with hmap
      exact ⟨im', rfl, hmap.trans hregt⟩
  case regFlag =>
    intro iid im' him' hreg'
    have him2 : aget iid (setTrackBRs track N s).images = some im' := him'
    have hmap := setTrackBRs_registered track N s iid
    rw [him2] at hmap
    cases hai : aget iid s.images with
    | none => rw [hai] at hmap; exact Option.noConfusion hmap
    | some im0 =>
      rw [hai] at hmap
      injection hmap with hmap
      show iid ∈ (setTrackBRs track N s).regImageIds
      rw [setTrackBRs_regImageIds]
      exact h.regFlag iid im0 hai (hmap.symm.trans hreg')
  case regNodup =>
    show (setTrackBRs track N s).regImageIds.Nodup
    rw [setTrackBRs_regImageIds]
    exact h.regNodup

theorem addPoint3DWithId_ok {s : Reconstruction} {pid : Point3DId} {p : Point3D}
    {t : Reconstruction} (hok : addPoint3DWithId s pid p = .ok t) :
    existsPoint3D s pid = false ∧ trackAddable s p.track ∧
    t = { setTrackBRs p.track pid s with
          points3D := aset pid p (setTrackBRs p.track pid s).points3D,
          maxPoint3DId := max s.maxPoint3DId pid } := by
  unfold addPoint3DWithId at hok
  split at hok
  · exact Except.noConfusion hok
  · split at hok
    case isTrue hex hadd =>
      injection hok with h1
      subst h1
      simp_all
    case isFalse => exact Except.noConfusion hok

theorem inv_addPoint3DWithId {s : Reconstruction} (h : Inv s) {pid : Point3DId}
    {p : Point3D} {t : Reconstruction} (hok : addPoint3DWithId s pid p = .ok t) : Inv t := by
  obtain ⟨hex, ⟨hnd, hfree⟩, ht⟩ := addPoint3DWithId_ok hok
  subst ht
  have hnone : aget pid s.points3D = none := by
    cases hg : aget pid s.points3D with
    | none => rfl
    | some w => rw [existsPoint3D, hg] at hex; exact Bool.noConfusion hex
  have hpts : ∀ (qid : Point3DId), aget qid (aset pid p (setTrackBRs p.track pid s).points3D) =
      aget qid (aset pid p s.points3D) := by
    intro qid
    rw [setTrackBRs_points3D]
  have hpt2 : ∀ iid jdx, point2DAt (setTrackBRs p.track pid s) iid jdx =
      if (⟨iid, jdx⟩ : TrackElement) ∈ p.track then
        (point2DAt s iid jdx).map (fun p2 => { p2 with point3DId := some pid })
      else point2DAt s iid jdx := fun iid jdx => setTrackBRs_point2DAt p.track pid s iid jdx
  constructor
  case camKeys =>
    show (akeys (setTrackBRs p.track pid s).cameras).Nodup
    rw [setTrackBRs_cameras]
    exact h.camKeys
  case imgKeys =>
    show (akeys (setTrackBRs p.track pid s).images).Nodup
    rw [setTrackBRs_akeys_images]
    exact h.imgKeys
  case ptKeys =>
    show (akeys (aset pid p (setTrackBRs p.track pid s).points3D)).Nodup
    rw [setTrackBRs_points3D]
    exact akeys_aset_nodup h.ptKeys p
  case fwd =>
    intro qid q hq el hel
    obtain ⟨a, b⟩ := el
    have hq1 : aget qid (aset pid p (setTrackBRs p.track pid s).points3D) = some q := hq
    rw [hpts] at hq1
    show ∃ p2, point2DAt (setTrackBRs p.track pid s) a b = some p2 ∧ p2.point3DId = some qid
    rw [hpt2]
    by_cases hqid : qid = pid
    · subst hqid
      rw [aget_aset_self] at hq1
      injection hq1 with hq1
      subst hq1
      have hmem : (⟨a, b⟩ : TrackElement) ∈ p.track := hel
      rw [if_pos hmem]
      obtain ⟨p2, hp2, -⟩ := slotFree_iff.mp (hfree _ hmem)
      rw [hp2]
      exact ⟨_, rfl, rfl⟩
    · rw [aget_aset_ne hqid] at hq1
      obtain ⟨p2, hp2, hbr⟩ := h.fwd qid q hq1 ⟨a, b⟩ hel
      have hnotmem : (⟨a, b⟩ : TrackElement) ∉ p.track := by
        intro hmem
        obtain ⟨p2', hp2', hnone2⟩ := slotFree_iff.mp (hfree _ hmem)
        rw [hp2] at hp2'
        injection hp2' with hp2'
        subst hp2'
        rw [hnone2] at hbr
        exact Option.noConfusion hbr
      rw [if_neg hnotmem]
      exact ⟨p2, hp2, hbr⟩
  case bwd =>
    intro iid idx p2 qid hp2 hbr
    have hp2' : point2DAt (setTrackBRs p.track pid s) iid idx = some p2 := hp2
    rw [hpt2] at hp2'
    show ∃ q, aget qid (aset pid p (setTrackBRs p.track pid s).points3D) = some q ∧
      q.track.count ⟨iid, idx⟩ = 1
    rw [hpts]
    by_cases hmem : (⟨iid, idx⟩ : TrackElement) ∈ p.track
    · rw [if_pos hmem] at hp2'
      cases hold : point2DAt s iid idx with
      | none => rw [hold] at hp2'; exact Option.noConfusion hp2'
      | some q2 =>
        rw [hold] at hp2'
        injection hp2' with hp2'
        subst hp2'
        injection hbr with hbr
        refine ⟨p, ?_, ?_⟩
        · rw [← hbr, aget_aset_self]
        · exact List.count_eq_one_of_mem hnd hmem
    · rw [if_neg hmem] at hp2'
      obtain ⟨q, hq3, hcount⟩ := h.bwd iid idx p2 qid hp2' hbr
      have hlt : qid ≠ pid := by
        intro hc
        rw [hc, hnone] at hq3
        exact Option.noConfusion hq3
      rw [aget_aset_ne hlt]
      exact ⟨q, hq3, hcount⟩
  case idBound =>
    intro qid q hq
    have hq1 : aget qid (aset pid p (setTrackBRs p.track pid s).points3D) = some q := hq
    rw [hpts] at hq1
    show qid ≤ max s.maxPoint3DId pid
    by_cases hqid : qid = pid
    · subst hqid
      exact Nat.le_max_right _ _
    · rw [aget_aset_ne hqid] at hq1
      exact Nat.le_trans (h.idBound qid q hq1) (Nat.le_max_left _ _)
  case regMem =>
    intro iid hmem
    have hmem' : iid ∈ s.regImageIds := by
      have h0 : iid ∈ (setTrackBRs p.track pid s).regImageIds := hmem
      rwa [setTrackBRs_regImageIds] at h0
    obtain ⟨im, him, hregt⟩ := h.regMem iid hmem'
    have hmap := setTrackBRs_registered p.track pid s iid
    rw [him] at hmap
    show ∃ im', aget iid (setTrackBRs p.track pid s).images = some im' ∧ im'.registered = true
    cases hai : aget iid (setTrackBRs p.track pid s).images with
    | none => rw [hai] at hmap; exact Option.noConfusion hmap
    | some im' =>
      rw [hai] at hmap
      injection hmap with hmap
      exact ⟨im', rfl, hmap.trans hregt⟩
  case regFlag =>
    intro iid im' him' hreg'
    have him2 : aget iid (setTrackBRs p.track pid s).images = some im' := him'
    have hmap := setTrackBRs_registered p.track pid s iid
    rw [him2] at hmap
    cases hai : aget iid s.images with
    | none => rw [hai] at hmap; exact Option.noConfusion hmap
    | some im0 =>
      rw [hai] at hmap
      injection hmap with hmap
      show iid ∈ (setTrackBRs p.track pid s).regImageIds
      rw [setTrackBRs_regImageIds]
      exact h.regFlag iid im0 hai (hmap.symm.trans hreg')
  case regNodup =>
    show (setTrackBRs p.track pid s).regImageIds.Nodup
    rw [setTrackBRs_regImageIds]
    exact h.regNodup

/-- The invariant only constrains the registries, the registered-image
sequence and the identifier generator, never the pair statistics. -/
theorem inv_of_only_stats {s t : Reconstruction} (h : Inv s)
    (ht : t = { s with imagePairStats := t.imagePairStats }) : Inv t := by
  rw [ht]
  exact ⟨h.camKeys, h.imgKeys, h.ptKeys, h.fwd, h.bwd, h.idBound, h.regMem,
    h.regFlag, h.regNodup⟩

theorem addObservation_ok {s : Reconstruction} {pid : Point3DId} {el : TrackElement}
    {t : Reconstruction} (hok : addObservation s pid el = .ok t) :
    ∃ p, aget pid s.points3D = some p ∧ slotFree s el = true ∧
    t = incPairsWith el p.track
          (updatePoint pid (fun q => { q with track := q.track ++ [el] })
            (setBR s el.imageId el.point2DIdx (some pid))) := by
  unfold addObservation at hok
  split at hok
  · exact Except.noConfusion hok
  case h_2 p hp =>
    split at hok
    case isTrue hfree =>
      injection hok with h1
      exact ⟨p, hp, hfree, h1.symm⟩
    case isFalse => exact Except.noConfusion hok

theorem inv_addObservation {s : Reconstruction} (h : Inv s) {pid : Point3DId}
    {el : TrackElement} {t : Reconstruction} (hok : addObservation s pid el = .ok t) :
    Inv t := by
  obtain ⟨p, hp, hfree, ht⟩ := addObservation_ok hok
  obtain ⟨a, b⟩ := el
  obtain ⟨p20, hp20, hnone⟩ := slotFree_iff.mp hfree
  refine inv_of_only_stats ?_ (by rw [ht, incPairsWith_only_stats])
  set g : Point3D → Point3D := fun q => { q with track := q.track ++ [⟨a, b⟩] } with hg
  set s2 : Reconstruction :=
    updatePoint pid g (setBR s a b (some pid)) with hs2
  have helnotrack : (⟨a, b⟩ : TrackElement) ∉ p.track := by
    intro hmem
    obtain ⟨p2, hp2, hbr⟩ := h.fwd pid p hp ⟨a, b⟩ hmem
    rw [hp20] at hp2
    injection hp2 with hp2
    subst hp2
    rw [hnone] at hbr
    exact Option.noConfusion hbr
  have hgetpt : ∀ qid, aget qid s2.points3D =
      if qid = pid then (aget qid s.points3D).map g else aget qid s.points3D := by
    intro qid
    by_cases hq : qid = pid
    · subst hq
      rw [if_pos rfl, hs2, aget_updatePoint_self]
      rfl
    · rw [if_neg hq, hs2, aget_updatePoint_ne hq]
      rfl
  have hpt2 : ∀ iid jdx, point2DAt s2 iid jdx =
      if iid = a ∧ jdx = b then
        (point2DAt s iid jdx).map (fun p2 => { p2 with point3DId := some pid })
      else point2DAt s iid jdx := by
    intro iid jdx
    have h0 : point2DAt s2 iid jdx = point2DAt (setBR s a b (some pid)) iid jdx :=
      point2DAt_updatePoint ..
    rw [h0]
    by_cases hc : iid = a ∧ jdx = b
    · obtain ⟨h1, h2⟩ := hc
      subst h1
      subst h2
      rw [if_pos ⟨rfl, rfl⟩, point2DAt_setBR_self]
    · rw [if_neg hc, point2DAt_setBR_ne s hc]
  constructor
  case camKeys => exact h.camKeys
  case imgKeys =>
    show (akeys (setBR s a b (some pid)).images).Nodup
    rw [akeys_setBR_images]
    exact h.imgKeys
  case ptKeys =>
    show (akeys (amodify pid g (setBR s a b (some pid)).points3D)).Nodup
    rw [akeys_amodify]
    exact h.ptKeys
  case fwd =>
    intro qid q hq el' hel'
    obtain ⟨c, d⟩ := el'
    rw [hgetpt] at hq
    show ∃ p2, point2DAt s2 c d = some p2 ∧ p2.point3DId = some qid
    rw [hpt2]
    by_cases hqid : qid = pid
    · subst hqid
      rw [if_pos rfl, hp] at hq
      injection hq with hq
      subst hq
      rw [hg] at hel'
      rcases List.mem_append.mp hel' with hmem | hmem
      · obtain ⟨p2, hp2, hbr⟩ := h.fwd qid p hp ⟨c, d⟩ hmem
        have hne : ¬(c = a ∧ d = b) := by
          intro hc
          obtain ⟨h1, h2⟩ := hc
          subst h1
          subst h2
          exact helnotrack hmem
        rw [if_neg hne]
        exact ⟨p2, hp2, hbr⟩
      · have heq : (⟨c, d⟩ : TrackElement) = ⟨a, b⟩ := List.mem_singleton.mp hmem
        injection heq with h1 h2
        subst h1
        subst h2
        rw [if_pos ⟨rfl, rfl⟩, hp20]
        exact ⟨_, rfl, rfl⟩
    · rw [if_neg hqid] at hq
      obtain ⟨p2, hp2, hbr⟩ := h.fwd qid q hq ⟨c, d⟩ hel'
      have hne : ¬(c = a ∧ d = b) := by
        intro hc
        obtain ⟨h1, h2⟩ := hc
        subst h1
        subst h2
        rw [hp20] at hp2
        injection hp2 with hp2
        subst hp2
        rw [hnone] at hbr
        exact Option.noConfusion hbr
      rw [if_neg hne]
      exact ⟨p2, hp2, hbr⟩
  case bwd =>
    intro iid jdx p2 qid hp2 hbr
    rw [hpt2] at hp2
    by_cases hc : iid = a ∧ jdx = b
    · obtain ⟨h1, h2⟩ := hc
      subst h1
      subst h2
      rw [if_pos ⟨rfl, rfl⟩, hp20] at hp2
      injection hp2 with hp2
      subst hp2
      injection hbr with hbr
      subst hbr
      refine ⟨g p, ?_, ?_⟩
      · rw [hgetpt, if_pos rfl, hp]
        rfl
      · show (p.track ++ [(⟨iid, jdx⟩ : TrackElement)]).count ⟨iid, jdx⟩ = 1
        rw [List.count_append, List.count_eq_zero_of_not_mem helnotrack]
        simp
    · rw [if_neg hc] at hp2
      obtain ⟨q, hq, hcount⟩ := h.bwd iid jdx p2 qid hp2 hbr
      by_cases hqid : qid = pid
      · subst hqid
        rw [hp] at hq
        injection hq with hq
        subst hq
        refine ⟨g p, ?_, ?_⟩
        · rw [hgetpt, if_pos rfl, hp]
          rfl
        · show (p.track ++ [(⟨a, b⟩ : TrackElement)]).count ⟨iid, jdx⟩ = 1
          rw [List.count_append]
          have hne2 : (⟨iid, jdx⟩ : TrackElement) ≠ ⟨a, b⟩ := by
            intro hc2
            injection hc2 with h1 h2
            exact hc ⟨h1, h2⟩
          have hzero : List.count (⟨iid, jdx⟩ : TrackElement) [(⟨a, b⟩ : TrackElement)] = 0 :=
            List.count_eq_zero_of_not_mem (fun hmem2 => hne2 (List.mem_singleton.mp hmem2))
          rw [hzero, hcount]
      · refine ⟨q, ?_, hcount⟩
        rw [hgetpt, if_neg hqid]
        exact hq
  case idBound =>
    intro qid q hq
    rw [hgetpt] at hq
    show qid ≤ s.maxPoint3DId
    by_cases hqid : qid = pid
    · subst hqid
      rw [if_pos rfl, hp] at hq
      exact h.idBound qid p hp
    · rw [if_neg hqid] at hq
      exact h.idBound qid q hq
  case regMem =>
    intro iid hmem
    have hmem' : iid ∈ s.regImageIds := hmem
    obtain ⟨im, him, hregt⟩ := h.regMem iid hmem'
    have hmap := registered_setBR s a b (some pid) iid
    rw [him] at hmap
    show ∃ im', aget iid (setBR s a b (some pid)).images = some im' ∧ im'.registered = true
    cases hai : aget iid (setBR s a b (some pid)).images with
    | none => rw [hai] at hmap; exact Option.noConfusion hmap
    | some im' =>
      rw [hai] at hmap
      injection hmap with hmap
      exact ⟨im', rfl, hmap.trans hregt⟩
  case regFlag =>
    intro iid im' him' hreg'
    have him2 : aget iid (setBR s a b (some pid)).images = some im' := him'
    have hmap := registered_setBR s a b (some pid) iid
    rw [him2] at hmap
    cases hai : aget iid s.images with
    | none => rw [hai] at hmap; exact Option.noConfusion hmap
    | some im0 =>
      rw [hai] at hmap
      injection hmap with hmap
      show iid ∈ s.regImageIds
      exact h.regFlag iid im0 hai (hmap.symm.trans hreg')
  case regNodup => exact h.regNodup

theorem point2DAt_congr_images {s t : Reconstruction} (h : s.images = t.images)
    (iid : ImageId) (jdx : Point2DIdx) : point2DAt s iid jdx = point2DAt t iid jdx := by
  rw [point2DAt, point2DAt, h]

theorem incPairsWith_points3D (el : TrackElement) (tr : List TrackElement) (s : Reconstruction) :
    (incPairsWith el tr s).points3D = s.points3D := by
  rw [incPairsWith_only_stats]

theorem incPairsWith_images (el : TrackElement) (tr : List TrackElement) (s : Reconstruction) :
    (incPairsWith el tr s).images = s.images := by
  rw [incPairsWith_only_stats]

theorem incPairsWith_regImageIds (el : TrackElement) (tr : List TrackElement) (s : Reconstruction) :
    (incPairsWith el tr s).regImageIds = s.regImageIds := by
  rw [incPairsWith_only_stats]

theorem incPairsWith_maxPoint3DId (el : TrackElement) (tr : List TrackElement) (s : Reconstruction) :
    (incPairsWith el tr s).maxPoint3DId = s.maxPoint3DId := by
  rw [incPairsWith_only_stats]

theorem incPairsWith_cameras (el : TrackElement) (tr : List TrackElement) (s : Reconstruction) :
    (incPairsWith el tr s).cameras = s.cameras := by
  rw [incPairsWith_only_stats]

theorem decPairsWith_points3D (el : TrackElement) (tr : List TrackElement) (s : Reconstruction) :
    (decPairsWith el tr s).points3D = s.points3D := by
  rw [decPairsWith_only_stats]

theorem decPairsWith_images (el : TrackElement) (tr : List TrackElement) (s : Reconstruction) :
    (decPairsWith el tr s).images = s.images := by
  rw [decPairsWith_only_stats]

theorem decPairsWith_regImageIds (el : TrackElement) (tr : List TrackElement) (s : Reconstruction) :
    (decPairsWith el tr s).regImageIds = s.regImageIds := by
  rw [decPairsWith_only_stats]

theorem decPairsWith_maxPoint3DId (el : TrackElement) (tr : List TrackElement) (s : Reconstruction) :
    (decPairsWith el tr s).maxPoint3DId = s.maxPoint3DId := by
  rw [decPairsWith_only_stats]

theorem decPairsWith_cameras (el : TrackElement) (tr : List TrackElement) (s : Reconstruction) :
    (decPairsWith el tr s).cameras = s.cameras := by
  rw [decPairsWith_only_stats]

theorem decPairsOfTrack_points3D (tr : List TrackElement) (s : Reconstruction) :
    (decPairsOfTrack tr s).points3D = s.points3D := by
  rw [decPairsOfTrack_only_stats]

theorem decPairsOfTrack_images (tr : List TrackElement) (s : Reconstruction) :
    (decPairsOfTrack tr s).images = s.images := by
  rw [decPairsOfTrack_only_stats]

theorem decPairsOfTrack_regImageIds (tr : List TrackElement) (s : Reconstruction) :
    (decPairsOfTrack tr s).regImageIds = s.regImageIds := by
  rw [decPairsOfTrack_only_stats]

theorem decPairsOfTrack_maxPoint3DId (tr : List TrackElement) (s : Reconstruction) :
    (decPairsOfTrack tr s).maxPoint3DId = s.maxPoint3DId := by
  rw [decPairsOfTrack_only_stats]

theorem decPairsOfTrack_cameras (tr : List TrackElement) (s : Reconstruction) :
    (decPairsOfTrack tr s).cameras = s.cameras := by
  rw [decPairsOfTrack_only_stats]

theorem deletePoint3D_ok {s : Reconstruction} {pid : Point3DId} {t : Reconstruction}
    (hok : deletePoint3D s pid = .ok t) :
    ∃ p, aget pid s.points3D = some p ∧
    t = { decPairsOfTrack p.track (clearTrackBRs p.track s) with
          points3D := aerase pid (decPairsOfTrack p.track (clearTrackBRs p.track s)).points3D } := by
  unfold deletePoint3D at hok
  split at hok
  · exact Except.noConfusion hok
  case h_2 p hp =>
    injection hok with h1
    exact ⟨p, hp, h1.symm⟩

/-- Full observable characterization of a successful `deletePoint3D`. -/
theorem deletePoint3D_spec {s : Reconstruction} {pid : Point3DId} {t : Reconstruction}
    (hok : deletePoint3D s pid = .ok t) :
    ∃ p, aget pid s.points3D = some p ∧
      t.points3D = aerase pid s.points3D ∧
      t.maxPoint3DId = s.maxPoint3DId ∧
      (∀ iid jdx, point2DAt t iid jdx =
        if (⟨iid, jdx⟩ : TrackElement) ∈ p.track then
          (point2DAt s iid jdx).map (fun p2 => { p2 with point3DId := none })
        else point2DAt s iid jdx) ∧
      akeys t.images = akeys s.images ∧
      (∀ i, (aget i t.images).map Image.registered = (aget i s.images).map Image.registered) ∧
      t.regImageIds = s.regImageIds ∧
      t.cameras = s.cameras := by
  obtain ⟨p, hp, ht⟩ := deletePoint3D_ok hok
  subst ht
  refine ⟨p, hp, ?_, ?_, ?_, ?_, ?_, ?_, ?_⟩
  · show aerase pid (decPairsOfTrack p.track (clearTrackBRs p.track s)).points3D = aerase pid s.points3D
    rw [decPairsOfTrack_points3D, clearTrackBRs_points3D]
  · show (decPairsOfTrack p.track (clearTrackBRs p.track s)).maxPoint3DId = s.maxPoint3DId
    rw [decPairsOfTrack_maxPoint3DId, clearTrackBRs_maxPoint3DId]
  · intro iid jdx
    have h1 : point2DAt
        { decPairsOfTrack p.track (clearTrackBRs p.track s) with
          points3D := aerase pid (decPairsOfTrack p.track (clearTrackBRs p.track s)).points3D }
        iid jdx = point2DAt (decPairsOfTrack p.track (clearTrackBRs p.track s)) iid jdx := rfl
    rw [h1, point2DAt_congr_images (decPairsOfTrack_images p.track (clearTrackBRs p.track s)),
      clearTrackBRs_point2DAt]
  · show akeys (decPairsOfTrack p.track (clearTrackBRs p.track s)).images = akeys s.images
    rw [decPairsOfTrack_images, clearTrackBRs_akeys_images]
  · intro i
    show (aget i (decPairsOfTrack p.track (clearTrackBRs p.track s)).images).map Image.registered =
      (aget i s.images).map Image.registered
    rw [decPairsOfTrack_images, clearTrackBRs_registered]
  · show (decPairsOfTrack p.track (clearTrackBRs p.track s)).regImageIds = s.regImageIds
    rw [decPairsOfTrack_regImageIds, clearTrackBRs_regImageIds]
  · show (decPairsOfTrack p.track (clearTrackBRs p.track s)).cameras = s.cameras
    rw [decPairsOfTrack_cameras, clearTrackBRs_cameras]

theorem inv_deletePoint3D {s : Reconstruction} (h : Inv s) {pid : Point3DId}
    {t : Reconstruction} (hok : deletePoint3D s pid = .ok t) : Inv t := by
  obtain ⟨p, hp, hpts, hmax, hpt2, hkeys, hregm, hreg, hcams⟩ := deletePoint3D_spec hok
  constructor
  case camKeys => rw [hcams]; exact h.camKeys
  case imgKeys => rw [hkeys]; exact h.imgKeys
  case ptKeys =>
    rw [hpts]
    exact akeys_aerase_nodup h.ptKeys
  case fwd =>
    intro qid q hq el hel
    obtain ⟨a, b⟩ := el
    rw [hpts] at hq
    have hne : qid ≠ pid := by
      intro hc
      rw [hc, aget_aerase_self] at hq
      exact Option.noConfusion hq
    rw [aget_aerase_ne hne] at hq
    obtain ⟨p2, hp2, hbr⟩ := h.fwd qid q hq ⟨a, b⟩ hel
    rw [hpt2]
    have hnotmem : (⟨a, b⟩ : TrackElement) ∉ p.track := by
      intro hmem
      obtain ⟨p2', hp2', hbr'⟩ := h.fwd pid p hp ⟨a, b⟩ hmem
      rw [hp2] at hp2'
      injection hp2' with hp2'
      subst hp2'
      rw [hbr] at hbr'
      injection hbr' with hbr'
      exact hne hbr'
    rw [if_neg hnotmem]
    exact ⟨p2, hp2, hbr⟩
  case bwd =>
    intro iid jdx p2 qid hp2 hbr
    rw [hpt2] at hp2
    by_cases hmem : (⟨iid, jdx⟩ : TrackElement) ∈ p.track
    · rw [if_pos hmem] at hp2
      cases hold : point2DAt s iid jdx with
      | none => rw [hold] at hp2; exact Option.noConfusion hp2
      | some q2 =>
        rw [hold] at hp2
        injection hp2 with hp2
        subst hp2
        exact Option.noConfusion hbr
    · rw [if_neg hmem] at hp2
      obtain ⟨q, hq, hcount⟩ := h.bwd iid jdx p2 qid hp2 hbr
      have hne : qid ≠ pid := by
        intro hc
        subst hc
        rw [hp] at hq
        injection hq with hq
        subst hq
        apply hmem
        by_contra hmem2
        rw [List.count_eq_zero_of_not_mem hmem2] at hcount
        exact Nat.zero_ne_one hcount
      refine ⟨q, ?_, hcount⟩
      rw [hpts, aget_aerase_ne hne]
      exact hq
  case idBound =>
    intro qid q hq
    rw [hpts] at hq
    have hne : qid ≠ pid := by
      intro hc
      rw [hc, aget_aerase_self] at hq
      exact Option.noConfusion hq
    rw [aget_aerase_ne hne] at hq
    rw [hmax]
    exact h.idBound qid q hq
  case regMem =>
    intro iid hmem
    rw [hreg] at hmem
    obtain ⟨im, him, hregt⟩ := h.regMem iid hmem
    have hmap := hregm iid
    rw [him] at hmap
    cases hai : aget iid t.images with
    | none => rw [hai] at hmap; exact Option.noConfusion hmap
    | some im' =>
      rw [hai] at hmap
      injection hmap with hmap
      exact ⟨im', rfl, hmap.trans hregt⟩
  case regFlag =>
    intro iid im' him' hreg'
    have hmap := hregm iid
    rw [him'] at hmap
    cases hai : aget iid s.images with
    | none => rw [hai] at hmap; exact Option.noConfusion hmap
    | some im0 =>
      rw [hai] at hmap
      injection hmap with hmap
      rw [hreg]
      exact h.regFlag iid im0 hai (hmap.symm.trans hreg')
  case regNodup =>
    rw [hreg]
    exact h.regNodup

theorem count_filter_ne {α : Type} [DecidableEq α] {a x : α} (h : a ≠ x) (l : List α) :
    (l.filter (fun e => e ≠ x)).count a = l.count a := by
  induction l with
  | nil => rfl
  | cons b l ih =>
    by_cases hb : b = x
    · subst hb
      rw [show (b :: l).filter (fun e => e ≠ b) = l.filter (fun e => e ≠ b) from by simp]
      rw [ih, List.count_cons]
      simp [beq_iff_eq, Ne.symm h]
    · rw [show (b :: l).filter (fun e => e ≠ x) = b :: l.filter (fun e => e ≠ x) from by simp [hb]]
      rw [List.count_cons, List.count_cons, ih]

theorem mem_filter_ne {α : Type} [DecidableEq α] {a x : α} {l : List α} :
    a ∈ l.filter (fun e => e ≠ x) ↔ a ∈ l ∧ a ≠ x := by
  simp [List.mem_filter]

theorem deleteObservation_ok {s : Reconstruction} {id : ImageId} {idx : Point2DIdx}
    {t : Reconstruction} (hok : deleteObservation s id idx = .ok t) :
    ∃ p2 pid p, point2DAt s id idx = some p2 ∧ p2.point3DId = some pid ∧
      aget pid s.points3D = some p ∧
      ((p.track.length ≤ 2 ∧ deletePoint3D s pid = .ok t) ∨
       (¬(p.track.length ≤ 2) ∧
        t = decPairsWith ⟨id, idx⟩ (p.track.filter (fun e => e ≠ ⟨id, idx⟩))
              (updatePoint pid
                (fun q => { q with track := q.track.filter (fun e => e ≠ ⟨id, idx⟩) })
                (setBR s id idx none)))) := by
  unfold deleteObservation at hok
  split at hok
  · exact Except.noConfusion hok
  case h_2 p2 hp2 =>
    split at hok
    · exact Except.noConfusion hok
    case h_2 pid hbr =>
      split at hok
      · exact Except.noConfusion hok
      case h_2 p hp =>
        split at hok
        case isTrue hlen => exact ⟨p2, pid, p, hp2, hbr, hp, Or.inl ⟨hlen, hok⟩⟩
        case isFalse hlen =>
          injection hok with h1
          exact ⟨p2, pid, p, hp2, hbr, hp, Or.inr ⟨hlen, h1.symm⟩⟩

/-- Observable characterization of the non-cascading branch of
`deleteObservation` (track longer than two). -/
theorem deleteObservation_big_spec (s : Reconstruction) (id : ImageId) (idx : Point2DIdx)
    (pid : Point3DId) :
    ∀ t, t = decPairsWith ⟨id, idx⟩ (pTrackF) (updatePoint pid
        (fun q => { q with track := q.track.filter (fun e => e ≠ ⟨id, idx⟩) })
        (setBR s id idx none)) →
      (∀ qid, aget qid t.points3D =
        if qid = pid then
          (aget qid s.points3D).map
            (fun q => { q with track := q.track.filter (fun e => e ≠ ⟨id, idx⟩) })
        else aget qid s.points3D) ∧
      akeys t.points3D = akeys s.points3D ∧
      t.maxPoint3DId = s.maxPoint3DId ∧
      (∀ iid jdx, point2DAt t iid jdx =
        if iid = id ∧ jdx = idx then
          (point2DAt s iid jdx).map (fun q2 => { q2 with point3DId := none })
        else point2DAt s iid jdx) ∧
      akeys t.images = akeys s.images ∧
      (∀ i, (aget i t.images).map Image.registered = (aget i s.images).map Image.registered) ∧
      t.regImageIds = s.regImageIds ∧
      t.cameras = s.cameras := by
  intro t ht
  subst ht
  set g : Point3D → Point3D :=
    fun q => { q with track := q.track.filter (fun e => e ≠ ⟨id, idx⟩) } with hg
  refine ⟨?_, ?_, ?_, ?_, ?_, ?_, ?_, ?_⟩
  · intro qid
    rw [show (decPairsWith ⟨id, idx⟩ pTrackF (updatePoint pid g (setBR s id idx none))).points3D =
      (updatePoint pid g (setBR s id idx none)).points3D from decPairsWith_points3D ..]
    by_cases hq : qid = pid
    · subst hq
      rw [if_pos rfl, aget_updatePoint_self]
      rfl
    · rw [if_neg hq, aget_updatePoint_ne hq]
      rfl
  · rw [show (decPairsWith ⟨id, idx⟩ pTrackF (updatePoint pid g (setBR s id idx none))).points3D =
      (updatePoint pid g (setBR s id idx none)).points3D from decPairsWith_points3D ..]
    rw [akeys_updatePoint]
    rfl
  · rw [show (decPairsWith ⟨id, idx⟩ pTrackF (updatePoint pid g (setBR s id idx none))).maxPoint3DId =
      (updatePoint pid g (setBR s id idx none)).maxPoint3DId from decPairsWith_maxPoint3DId ..]
    rfl
  · intro iid jdx
    rw [point2DAt_congr_images (decPairsWith_images ⟨id, idx⟩ pTrackF
      (updatePoint pid g (setBR s id idx none)))]
    rw [show point2DAt (updatePoint pid g (setBR s id idx none)) iid jdx =
      point2DAt (setBR s id idx none) iid jdx from point2DAt_updatePoint ..]
    by_cases hc : iid = id ∧ jdx = idx
    · obtain ⟨h1, h2⟩ := hc
      subst h1
      subst h2
      rw [if_pos ⟨rfl, rfl⟩, point2DAt_setBR_self]
    · rw [if_neg hc, point2DAt_setBR_ne s hc]
  · rw [show (decPairsWith ⟨id, idx⟩ pTrackF (updatePoint pid g (setBR s id idx none))).images =
      (updatePoint pid g (setBR s id idx none)).images from decPairsWith_images ..]
    rw [show (updatePoint pid g (setBR s id idx none)).images = (setBR s id idx none).images from rfl]
    rw [akeys_setBR_images]
  · intro i
    rw [show (decPairsWith ⟨id, idx⟩ pTrackF (updatePoint pid g (setBR s id idx none))).images =
      (updatePoint pid g (setBR s id idx none)).images from decPairsWith_images ..]
    rw [show (updatePoint pid g (setBR s id idx none)).images = (setBR s id idx none).images from rfl]
    rw [registered_setBR]
  · rw [show (decPairsWith ⟨id, idx⟩ pTrackF (updatePoint pid g (setBR s id idx none))).regImageIds =
      (updatePoint pid g (setBR s id idx none)).regImageIds from decPairsWith_regImageIds ..]
    rfl
  · rw [show (decPairsWith ⟨id, idx⟩ pTrackF (updatePoint pid g (setBR s id idx none))).cameras =
      (updatePoint pid g (setBR s id idx none)).cameras from decPairsWith_cameras ..]
    rfl

theorem inv_deleteObservation {s : Reconstruction} (h : Inv s) {id : ImageId}
    {idx : Point2DIdx} {t : Reconstruction} (hok : deleteObservation s id idx = .ok t) :
    Inv t := by
  obtain ⟨p2, pid, p, hp2, hbr, hp, hcase⟩ := deleteObservation_ok hok
  rcases hcase with ⟨hlen, hdel⟩ | ⟨hlen, ht⟩
  · exact inv_deletePoint3D h hdel
  · obtain ⟨hgetpt, hkeyspt, hmax, hpt2, hkeysimg, hregm, hreg, hcams⟩ :=
      deleteObservation_big_spec s id idx pid t ht
    have hslot : (⟨id, idx⟩ : TrackElement) ∈ p.track := by
      obtain ⟨q, hq, hmem⟩ := h.slot_to_track hp2 hbr
      rw [hp] at hq
      injection hq with hq
      subst hq
      exact hmem
    constructor
    case camKeys => rw [hcams]; exact h.camKeys
    case imgKeys => rw [hkeysimg]; exact h.imgKeys
    case ptKeys => rw [hkeyspt]; exact h.ptKeys
    case fwd =>
      intro qid q hq el hel
      obtain ⟨a, b⟩ := el
      rw [hgetpt] at hq
      rw [hpt2]
      by_cases hqid : qid = pid
      · subst hqid
        rw [if_pos rfl, hp] at hq
        have hq2 : some { p with
            track := p.track.filter (fun e => e ≠ (⟨id, idx⟩ : TrackElement)) } = some q := hq
        injection hq2 with hq2
        subst hq2
        have hel2 : (⟨a, b⟩ : TrackElement) ∈ p.track ∧
            (⟨a, b⟩ : TrackElement) ≠ ⟨id, idx⟩ := mem_filter_ne.mp hel
        obtain ⟨p2', hp2', hbr'⟩ := h.fwd qid p hp ⟨a, b⟩ hel2.1
        have hne : ¬(a = id ∧ b = idx) := by
          intro hc
          obtain ⟨h1, h2⟩ := hc
          subst h1
          subst h2
          exact hel2.2 rfl
        rw [if_neg hne]
        exact ⟨p2', hp2', hbr'⟩
      · rw [if_neg hqid] at hq
        obtain ⟨p2', hp2', hbr'⟩ := h.fwd qid q hq ⟨a, b⟩ hel
        have hne : ¬(a = id ∧ b = idx) := by
          intro hc
          obtain ⟨h1, h2⟩ := hc
          subst h1
          subst h2
          rw [hp2] at hp2'
          injection hp2' with hp2'
          subst hp2'
          rw [hbr'] at hbr
          injection hbr with hbr
          exact hqid hbr
        rw [if_neg hne]
        exact ⟨p2', hp2', hbr'⟩
    case bwd =>
      intro iid jdx q2 qid hq2 hbr2
      rw [hpt2] at hq2
      by_cases hc : iid = id ∧ jdx = idx
      · obtain ⟨h1, h2⟩ := hc
        subst h1
        subst h2
        rw [if_pos ⟨rfl, rfl⟩] at hq2
        cases hold : point2DAt s iid jdx with
        | none => rw [hold] at hq2; exact Option.noConfusion hq2
        | some w =>
          rw [hold] at hq2
          injection hq2 with hq2
          subst hq2
          exact Option.noConfusion hbr2
      · rw [if_neg hc] at hq2
        obtain ⟨q, hq, hcount⟩ := h.bwd iid jdx q2 qid hq2 hbr2
        by_cases hqid : qid = pid
        · subst hqid
          rw [hp] at hq
          injection hq with hq
          subst hq
          refine ⟨{ p with
            track := p.track.filter (fun e => e ≠ (⟨id, idx⟩ : TrackElement)) }, ?_, ?_⟩
          · rw [hgetpt, if_pos rfl, hp]
            rfl
          · show ((p.track.filter (fun e => e ≠ (⟨id, idx⟩ : TrackElement)))).count ⟨iid, jdx⟩ = 1
            have hne2 : (⟨iid, jdx⟩ : TrackElement) ≠ ⟨id, idx⟩ := by
              intro hc2
              injection hc2 with e1 e2
              exact hc ⟨e1, e2⟩
            rw [count_filter_ne hne2]
            exact hcount
        · refine ⟨q, ?_, hcount⟩
          rw [hgetpt, if_neg hqid]
          exact hq
    case idBound =>
      intro qid q hq
      rw [hgetpt] at hq
      rw [hmax]
      by_cases hqid : qid = pid
      · subst hqid
        rw [if_pos rfl, hp] at hq
        exact h.idBound qid p hp
      · rw [if_neg hqid] at hq
        exact h.idBound qid q hq
    case regMem =>
      intro iid hmem
      rw [hreg] at hmem
      obtain ⟨im, him, hregt⟩ := h.regMem iid hmem
      have hmap := hregm iid
      rw [him] at hmap
      cases hai : aget iid t.images with
      | none => rw [hai] at hmap; exact Option.noConfusion hmap
      | some im' =>
        rw [hai] at hmap
        injection hmap with hmap
        exact ⟨im', rfl, hmap.trans hregt⟩
    case regFlag =>
      intro iid im' him' hreg'
      have hmap := hregm iid
      rw [him'] at hmap
      cases hai : aget iid s.images with
      | none => rw [hai] at hmap; exact Option.noConfusion hmap
      | some im0 =>
        rw [hai] at hmap
        injection hmap with hmap
        rw [hreg]
        exact h.regFlag iid im0 hai (hmap.symm.trans hreg')
    case regNodup => rw [hreg]; exact h.regNodup

theorem bindnth_amodify_flag (imgs : List (ImageId × Image)) (id : ImageId) (b : Bool)
    (iid : ImageId) (jdx : Point2DIdx) :
    (aget iid (amodify id (fun im => { im with registered := b }) imgs)).bind
      (fun im => nth im.points2D jdx) =
    (aget iid imgs).bind (fun im => nth im.points2D jdx) := by
  by_cases hi : iid = id
  · subst hi
    rw [aget_amodify_self]
    cases aget iid imgs <;> rfl
  · rw [aget_amodify_ne hi]

theorem registerImage_ok {s : Reconstruction} {id : ImageId} {t : Reconstruction}
    (hok : registerImage s id = .ok t) :
    ∃ im, aget id s.images = some im ∧
      ((im.registered = true ∧ t = s) ∨
       (im.registered = false ∧
        t = { s with
              images := amodify id (fun im => { im with registered := true }) s.images,
              regImageIds := s.regImageIds ++ [id] })) := by
  unfold registerImage at hok
  split at hok
  · exact Except.noConfusion hok
  case h_2 im him =>
    split at hok
    case isTrue hr =>
      injection hok with h1
      exact ⟨im, him, Or.inl ⟨hr, h1.symm⟩⟩
    case isFalse hr =>
      injection hok with h1
      exact ⟨im, him, Or.inr ⟨Bool.not_eq_true _ ▸ Bool.of_not_eq_true hr, h1.symm⟩⟩

theorem inv_registerImage {s : Reconstruction} (h : Inv s) {id : ImageId}
    {t : Reconstruction} (hok : registerImage s id = .ok t) : Inv t := by
  obtain ⟨im, him, hcase⟩ := registerImage_ok hok
  rcases hcase with ⟨-, rfl⟩ | ⟨hflag, rfl⟩
  · exact h
  · have hidnotreg : id ∉ s.regImageIds := by
      intro hmem
      obtain ⟨im', him', hreg'⟩ := h.regMem id hmem
      rw [him] at him'
      injection him' with him'
      subst him'
      rw [hflag] at hreg'
      exact Bool.noConfusion hreg'
    constructor
    case camKeys => exact h.camKeys
    case imgKeys =>
      show (akeys (amodify id _ s.images)).Nodup
      rw [akeys_amodify]
      exact h.imgKeys
    case ptKeys => exact h.ptKeys
    case fwd =>
      intro pid p hp el hel
      obtain ⟨p2, hp2, hbr⟩ := h.fwd pid p hp el hel
      have heq : point2DAt { s with
          images := amodify id (fun im => { im with registered := true }) s.images,
          regImageIds := s.regImageIds ++ [id] } el.imageId el.point2DIdx =
          point2DAt s el.imageId el.point2DIdx :=
        bindnth_amodify_flag s.images id true el.imageId el.point2DIdx
      rw [heq]
      exact ⟨p2, hp2, hbr⟩
    case bwd =>
      intro iid jdx p2 pid hp2 hbr
      have heq : point2DAt { s with
          images := amodify id (fun im => { im with registered := true }) s.images,
          regImageIds := s.regImageIds ++ [id] } iid jdx = point2DAt s iid jdx :=
        bindnth_amodify_flag s.images id true iid jdx
      rw [heq] at hp2
      exact h.bwd iid jdx p2 pid hp2 hbr
    case idBound => exact h.idBound
    case regMem =>
      intro iid hmem
      have hmem0 : iid ∈ s.regImageIds ++ [id] := hmem
      rcases List.mem_append.mp hmem0 with hmem1 | hmem1
      · obtain ⟨im', him', hreg'⟩ := h.regMem iid hmem1
        have hne : iid ≠ id := by
          intro hc
          subst hc
          exact hidnotreg hmem1
        refine ⟨im', ?_, hreg'⟩
        show aget iid (amodify id _ s.images) = some im'
        rw [aget_amodify_ne hne]
        exact him'
      · have hiid : iid = id := List.mem_singleton.mp hmem1
        subst hiid
        refine ⟨{ im with registered := true }, ?_, rfl⟩
        show aget iid (amodify iid _ s.images) = _
        rw [aget_amodify_self, him]
        rfl
    case regFlag =>
      intro iid im' him' hreg'
      by_cases hi : iid = id
      · subst hi
        exact List.mem_append.mpr (Or.inr (List.mem_singleton.mpr rfl))
      · have him2 : aget iid (amodify id (fun im => { im with registered := true }) s.images) =
            some im' := him'
        rw [aget_amodify_ne hi] at him2
        exact List.mem_append.mpr (Or.inl (h.regFlag iid im' him2 hreg'))
    case regNodup =>
      show (s.regImageIds ++ [id]).Nodup
      rw [List.nodup_append]
      refine ⟨h.regNodup, List.nodup_singleton id, ?_⟩
      intro a ha hb
      rw [List.mem_singleton] at hb
      subst hb
      exact hidnotreg ha

theorem inv_runOr {s : Reconstruction} (h : Inv s) (r : Except RecError Reconstruction)
    (hr : ∀ t, r = .ok t → Inv t) : Inv (runOr s r) := by
  cases r with
  | ok t => exact hr t rfl
  | error e => exact h

theorem inv_deleteObsOfImage {s : Reconstruction} (h : Inv s) (id : ImageId) (n : Nat) :
    Inv (deleteObsOfImage s id n) := by
  induction n with
  | zero => exact h
  | succ n ih =>
    rw [deleteObsOfImage]
    exact inv_runOr ih _ (fun t hok => inv_deleteObservation ih hok)

theorem deleteObservation_regImageIds {s : Reconstruction} {id : ImageId} {idx : Point2DIdx}
    {t : Reconstruction} (hok : deleteObservation s id idx = .ok t) :
    t.regImageIds = s.regImageIds := by
  obtain ⟨p2, pid, p, hp2, hbr, hp, hcase⟩ := deleteObservation_ok hok
  rcases hcase with ⟨-, hdel⟩ | ⟨-, ht⟩
  · obtain ⟨q, -, -, -, -, -, -, hreg, -⟩ := deletePoint3D_spec hdel
    exact hreg
  · obtain ⟨-, -, -, -, -, -, hreg, -⟩ := deleteObservation_big_spec s id idx pid t ht
    exact hreg

theorem deleteObsOfImage_regImageIds (s : Reconstruction) (id : ImageId) (n : Nat) :
    (deleteObsOfImage s id n).regImageIds = s.regImageIds := by
  induction n with
  | zero => rfl
  | succ n ih =>
    rw [deleteObsOfImage]
    cases hok : deleteObservation (deleteObsOfImage s id n) id n with
    | ok t =>
      show t.regImageIds = s.regImageIds
      rw [deleteObservation_regImageIds hok, ih]
    | error e => exact ih

theorem deRegisterImage_ok {s : Reconstruction} {id : ImageId} {t : Reconstruction}
    (hok : deRegisterImage s id = .ok t) :
    ∃ im, aget id s.images = some im ∧
      t = { deleteObsOfImage s id im.points2D.length with
            images := amodify id (fun im => { im with registered := false })
              (deleteObsOfImage s id im.points2D.length).images,
            regImageIds := (deleteObsOfImage s id im.points2D.length).regImageIds.filter
              (fun j => j ≠ id) } := by
  unfold deRegisterImage at hok
  split at hok
  · exact Except.noConfusion hok
  case h_2 im him =>
    injection hok with h1
    exact ⟨im, him, h1.symm⟩

theorem inv_deRegisterImage {s : Reconstruction} (h : Inv s) {id : ImageId}
    {t : Reconstruction} (hok : deRegisterImage s id = .ok t) : Inv t := by
  obtain ⟨im, him, rfl⟩ := deRegisterImage_ok hok
  set s1 : Reconstruction := deleteObsOfImage s id im.points2D.length with hs1
  have h1 : Inv s1 := inv_deleteObsOfImage h id im.points2D.length
  constructor
  case camKeys => exact h1.camKeys
  case imgKeys =>
    show (akeys (amodify id _ s1.images)).Nodup
    rw [akeys_amodify]
    exact h1.imgKeys
  case ptKeys => exact h1.ptKeys
  case fwd =>
    intro pid p hp el hel
    obtain ⟨p2, hp2, hbr⟩ := h1.fwd pid p hp el hel
    have heq : point2DAt { s1 with
        images := amodify id (fun im => { im with registered := false }) s1.images,
        regImageIds := s1.regImageIds.filter (fun j => j ≠ id) } el.imageId el.point2DIdx =
        point2DAt s1 el.imageId el.point2DIdx :=
      bindnth_amodify_flag s1.images id false el.imageId el.point2DIdx
    rw [heq]
    exact ⟨p2, hp2, hbr⟩
  case bwd =>
    intro iid jdx p2 pid hp2 hbr
    have heq : point2DAt { s1 with
        images := amodify id (fun im => { im with registered := false }) s1.images,
        regImageIds := s1.regImageIds.filter (fun j => j ≠ id) } iid jdx =
        point2DAt s1 iid jdx :=
      bindnth_amodify_flag s1.images id false iid jdx
    rw [heq] at hp2
    exact h1.bwd iid jdx p2 pid hp2 hbr
  case idBound => exact h1.idBound
  case regMem =>
    intro iid hmem
    have hmem2 : iid ∈ s1.regImageIds ∧ iid ≠ id := mem_filter_ne.mp hmem
    obtain ⟨im', him', hreg'⟩ := h1.regMem iid hmem2.1
    refine ⟨im', ?_, hreg'⟩
    show aget iid (amodify id _ s1.images) = some im'
    rw [aget_amodify_ne hmem2.2]
    exact him'
  case regFlag =>
    intro iid im' him' hreg'
    by_cases hi : iid = id
    · subst hi
      have him2 : aget iid (amodify iid (fun im => { im with registered := false }) s1.images) =
          some im' := him'
      rw [aget_amodify_self] at him2
      cases hai : aget iid s1.images with
      | none => rw [hai] at him2; exact Option.noConfusion him2
      | some im0 =>
        rw [hai] at him2
        injection him2 with him2
        subst him2
        exact Bool.noConfusion hreg'
    · have him2 : aget iid (amodify id (fun im => { im with registered := false }) s1.images) =
          some im' := him'
      rw [aget_amodify_ne hi] at him2
      exact mem_filter_ne.mpr ⟨h1.regFlag iid im' him2 hreg', hi⟩
  case regNodup =>
    show (s1.regImageIds.filter (fun j => j ≠ id)).Nodup
    exact h1.regNodup.filter _

theorem mergePoints3D_ok {s : Reconstruction} {id1 id2 : Point3DId} {nid : Point3DId}
    {t : Reconstruction} (hok : mergePoints3D s id1 id2 = .ok (nid, t)) :
    id1 ≠ id2 ∧ ∃ p1 p2 s1 s2,
      aget id1 s.points3D = some p1 ∧ aget id2 s.points3D = some p2 ∧
      deletePoint3D s id1 = .ok s1 ∧ deletePoint3D s1 id2 = .ok s2 ∧
      addPoint3D s2
        ((((p1.track.length : ℚ)) * p1.x + ((p2.track.length : ℚ)) * p2.x) /
            ((p1.track.length : ℚ) + (p2.track.length : ℚ)),
         (((p1.track.length : ℚ)) * p1.y + ((p2.track.length : ℚ)) * p2.y) /
            ((p1.track.length : ℚ) + (p2.track.length : ℚ)),
         (((p1.track.length : ℚ)) * p1.z + ((p2.track.length : ℚ)) * p2.z) /
            ((p1.track.length : ℚ) + (p2.track.length : ℚ)))
        (p1.track ++ p2.track)
        ((p1.color.1 + p2.color.1) / 2, (p1.color.2.1 + p2.color.2.1) / 2,
         (p1.color.2.2 + p2.color.2.2) / 2) = .ok (nid, t) := by
  unfold mergePoints3D at hok
  split at hok
  · exact Except.noConfusion hok
  case isFalse hne =>
    split at hok
    case h_1 p1 p2 hp1 hp2 =>
      constructor
      · exact hne
      · refine ⟨p1, p2, ?_⟩
        split at hok
        · exact Except.noConfusion hok
        case h_2 s1 hdel1 =>
          split at hok
          · exact Except.noConfusion hok
          case h_2 s2 hdel2 => exact ⟨s1, s2, hp1, hp2, hdel1, hdel2, hok⟩
    case h_2 hboth => exact Except.noConfusion hok

theorem inv_mergePoints3D {s : Reconstruction} (h : Inv s) {id1 id2 : Point3DId}
    {nid : Point3DId} {t : Reconstruction}
    (hok : mergePoints3D s id1 id2 = .ok (nid, t)) : Inv t := by
  obtain ⟨hne, p1, p2, s1, s2, hp1, hp2, hdel1, hdel2, hadd⟩ := mergePoints3D_ok hok
  exact inv_addPoint3D (inv_deletePoint3D (inv_deletePoint3D h hdel1) hdel2) hadd

/-! ### Invariant preservation over whole operation sequences -/

theorem inv_recInit : Inv recInit := by
  constructor
  case camKeys => exact List.nodup_nil
  case imgKeys => exact List.nodup_nil
  case ptKeys => exact List.nodup_nil
  case fwd => intro pid p hp; exact Option.noConfusion hp
  case bwd =>
    intro iid idx p2 pid hp2 hbr
    exact Option.noConfusion hp2
  case idBound => intro pid p hp; exact Option.noConfusion hp
  case regMem => intro iid hmem; exact absurd hmem (List.not_mem_nil iid)
  case regFlag => intro iid im him hreg; exact Option.noConfusion him
  case regNodup => exact List.nodup_nil

theorem inv_execOp {s : Reconstruction} (h : Inv s) (op : Op) : Inv (execOp s op) := by
  cases op with
  | addCamera id cam =>
    exact inv_runOr h _ (fun t hok => inv_addCamera h hok)
  | addImage id camId pose keypoints =>
    refine inv_runOr h _ (fun t hok => inv_addImage h ?_ rfl hok)
    intro p2 hp2
    obtain ⟨q, -, rfl⟩ := List.mem_map.mp hp2
    rfl
  | addPoint3D xyz track color =>
    show Inv (match addPoint3D s xyz track color with
      | .ok r => r.2
      | .error _ => s)
    cases hres : addPoint3D s xyz track color with
    | ok r =>
      obtain ⟨nid, t⟩ := r
      exact inv_addPoint3D h hres
    | error e => exact h
  | addPoint3DWithId id p =>
    exact inv_runOr h _ (fun t hok => inv_addPoint3DWithId h hok)
  | addObservation pid el =>
    exact inv_runOr h _ (fun t hok => inv_addObservation h hok)
  | mergePoints3D id1 id2 =>
    show Inv (match mergePoints3D s id1 id2 with
      | .ok r => r.2
      | .error _ => s)
    cases hres : mergePoints3D s id1 id2 with
    | ok r =>
      obtain ⟨nid, t⟩ := r
      exact inv_mergePoints3D h hres
    | error e => exact h
  | deletePoint3D id =>
    exact inv_runOr h _ (fun t hok => inv_deletePoint3D h hok)
  | deleteObservation id idx =>
    exact inv_runOr h _ (fun t hok => inv_deleteObservation h hok)
  | registerImage id =>
    exact inv_runOr h _ (fun t hok => inv_registerImage h hok)
  | deRegisterImage id =>
    exact inv_runOr h _ (fun t hok => inv_deRegisterImage h hok)

theorem inv_execOps_of (ops : List Op) : ∀ s, Inv s → Inv (execOps s ops) := by
  induction ops with
  | nil => intro s h; exact h
  | cons op rest ih =>
    intro s h
    rw [execOps, List.foldl_cons]
    exact ih (execOp s op) (inv_execOp h op)

theorem inv_execOps (ops : List Op) : Inv (execOps recInit ops) :=
  inv_execOps_of ops recInit inv_recInit

/-! ### Monotonicity of the identifier generator -/

theorem deleteObservation_maxPoint3DId {s : Reconstruction} {id : ImageId} {idx : Point2DIdx}
    {t : Reconstruction} (hok : deleteObservation s id idx = .ok t) :
    t.maxPoint3DId = s.maxPoint3DId := by
  obtain ⟨p2, pid, p, hp2, hbr, hp, hcase⟩ := deleteObservation_ok hok
  rcases hcase with ⟨-, hdel⟩ | ⟨-, ht⟩
  · obtain ⟨q, -, -, hmax, -⟩ := deletePoint3D_spec hdel
    exact hmax
  · obtain ⟨-, -, hmax, -⟩ := deleteObservation_big_spec s id idx pid t ht
    exact hmax

theorem deleteObsOfImage_maxPoint3DId (s : Reconstruction) (id : ImageId) (n : Nat) :
    (deleteObsOfImage s id n).maxPoint3DId = s.maxPoint3DId := by
  induction n with
  | zero => rfl
  | succ n ih =>
    rw [deleteObsOfImage]
    cases hok : deleteObservation (deleteObsOfImage s id n) id n with
    | ok t =>
      show t.maxPoint3DId = s.maxPoint3DId
      rw [deleteObservation_maxPoint3DId hok, ih]
    | error e => exact ih

theorem maxPoint3DId_le_execOp (s : Reconstruction) (op : Op) :
    s.maxPoint3DId ≤ (execOp s op).maxPoint3DId := by
  cases op with
  | addCamera id cam =>
    show s.maxPoint3DId ≤ (runOr s (addCamera s id cam)).maxPoint3DId
    cases hres : addCamera s id cam with
    | ok t =>
      obtain ⟨-, rfl⟩ := addCamera_ok hres
      exact Nat.le_refl _
    | error e => exact Nat.le_refl _
  | addImage id camId pose keypoints =>
    show s.maxPoint3DId ≤ (runOr s (addImage s id _)).maxPoint3DId
    cases hres : addImage s id _ with
    | ok t =>
      obtain ⟨-, -, rfl⟩ := addImage_ok hres
      exact Nat.le_refl _
    | error e => exact Nat.le_refl _
  | addPoint3D xyz track color =>
    show s.maxPoint3DId ≤ (match addPoint3D s xyz track color with
      | .ok r => r.2
      | .error _ => s).maxPoint3DId
    cases hres : addPoint3D s xyz track color with
    | ok r =>
      obtain ⟨nid, t⟩ := r
      obtain ⟨-, -, rfl⟩ := addPoint3D_ok hres
      exact Nat.le_succ _
    | error e => exact Nat.le_refl _
  | addPoint3DWithId id p =>
    show s.maxPoint3DId ≤ (runOr s (addPoint3DWithId s id p)).maxPoint3DId
    cases hres : addPoint3DWithId s id p with
    | ok t =>
      obtain ⟨-, -, rfl⟩ := addPoint3DWithId_ok hres
      exact Nat.le_max_left _ _
    | error e => exact Nat.le_refl _
  | addObservation pid el =>
    show s.maxPoint3DId ≤ (runOr s (addObservation s pid el)).maxPoint3DId
    cases hres : addObservation s pid el with
    | ok t =>
      obtain ⟨p, -, -, rfl⟩ := addObservation_ok hres
      exact Nat.le_of_eq (incPairsWith_maxPoint3DId el p.track
        (updatePoint pid (fun q => { q with track := q.track ++ [el] })
          (setBR s el.imageId el.point2DIdx (some pid)))).symm
    | error e => exact Nat.le_refl _
  | mergePoints3D id1 id2 =>
    show s.maxPoint3DId ≤ (match mergePoints3D s id1 id2 with
      | .ok r => r.2
      | .error _ => s).maxPoint3DId
    cases hres : mergePoints3D s id1 id2 with
    | ok r =>
      obtain ⟨nid, t⟩ := r
      obtain ⟨-, p1, p2, s1, s2, -, -, hdel1, hdel2, hadd⟩ := mergePoints3D_ok hres
      obtain ⟨q1, -, -, hmax1, -⟩ := deletePoint3D_spec hdel1
      obtain ⟨q2, -, -, hmax2, -⟩ := deletePoint3D_spec hdel2
      obtain ⟨-, -, rfl⟩ := addPoint3D_ok hadd
      show s.maxPoint3DId ≤ s2.maxPoint3DId + 1
      rw [hmax2, hmax1]
      exact Nat.le_succ _
    | error e => exact Nat.le_refl _
  | deletePoint3D id =>
    show s.maxPoint3DId ≤ (runOr s (deletePoint3D s id)).maxPoint3DId
    cases hres : deletePoint3D s id with
    | ok t =>
      obtain ⟨q, -, -, hmax, -⟩ := deletePoint3D_spec hres
      exact Nat.le_of_eq hmax.symm
    | error e => exact Nat.le_refl _
  | deleteObservation id idx =>
    show s.maxPoint3DId ≤ (runOr s (deleteObservation s id idx)).maxPoint3DId
    cases hres : deleteObservation s id idx with
    | ok t =>
      exact Nat.le_of_eq (deleteObservation_maxPoint3DId hres).symm
    | error e => exact Nat.le_refl _
  | registerImage id =>
    show s.maxPoint3DId ≤ (runOr s (registerImage s id)).maxPoint3DId
    cases hres : registerImage s id with
    | ok t =>
      obtain ⟨im, -, hcase⟩ := registerImage_ok hres
      rcases hcase with ⟨-, rfl⟩ | ⟨-, rfl⟩
      · exact Nat.le_refl _
      · exact Nat.le_refl _
    | error e => exact Nat.le_refl _
  | deRegisterImage id =>
    show s.maxPoint3DId ≤ (runOr s (deRegisterImage s id)).maxPoint3DId
    cases hres : deRegisterImage s id with
    | ok t =>
      obtain ⟨im, -, rfl⟩ := deRegisterImage_ok hres
      exact Nat.le_of_eq (deleteObsOfImage_maxPoint3DId s id im.points2D.length).symm
    | error e => exact Nat.le_refl _

theorem maxPoint3DId_le_execOps (s : Reconstruction) (ops : List Op) :
    s.maxPoint3DId ≤ (execOps s ops).maxPoint3DId := by
  induction ops generalizing s with
  | nil => exact Nat.le_refl _
  | cons op rest ih =>
    rw [execOps, List.foldl_cons]
    exact Nat.le_trans (maxPoint3DId_le_execOp s op) (ih (execOp s op))

/-! ### Counting lemmas -/

theorem length_filter_ne {α : Type} [DecidableEq α] (x : α) (l : List α) :
    (l.filter (fun e => e ≠ x)).length + l.count x = l.length := by
  induction l with
  | nil => rfl
  | cons b l ih =>
    by_cases hb : b = x
    · subst hb
      have hstep : (b :: l).filter (fun e => e ≠ b) = l.filter (fun e => e ≠ b) := by simp
      have hcnt : (b :: l).count b = l.count b + 1 := by
        rw [List.count_cons]
        simp
      rw [hstep, hcnt, List.length_cons]
      omega
    · have hstep : (b :: l).filter (fun e => e ≠ x) = b :: l.filter (fun e => e ≠ x) := by
        simp [hb]
      have hcnt : (b :: l).count x = l.count x := by
        rw [List.count_cons]
        simp [beq_iff_eq, hb, Ne.symm hb]
      rw [hstep, hcnt, List.length_cons, List.length_cons]
      omega

/-- With the invariant, `NumRegImages` counts exactly the images whose
registration flag is set. -/
theorem numRegImages_eq_count {s : Reconstruction} (h : Inv s) :
    numRegImages s = (s.images.filter (fun e => e.2.registered)).length := by
  have hnodup2 : (akeys (s.images.filter (fun e => e.2.registered))).Nodup := by
    refine h.imgKeys.sublist ?_
    exact (s.images.filter_sublist).map Prod.fst
  have hmemiff : ∀ iid, iid ∈ s.regImageIds ↔
      iid ∈ akeys (s.images.filter (fun e => e.2.registered)) := by
    intro iid
    constructor
    · intro hmem
      obtain ⟨im, him, hreg⟩ := h.regMem iid hmem
      refine List.mem_map.mpr ⟨(iid, im), ?_, rfl⟩
      rw [List.mem_filter]
      exact ⟨aget_mem him, by simpa using hreg⟩
    · intro hmem
      obtain ⟨⟨iid', im⟩, hmem2, hfst⟩ := List.mem_map.mp hmem
      rw [List.mem_filter] at hmem2
      obtain ⟨hmem3, hreg⟩ := hmem2
      cases hfst
      exact h.regFlag iid' im (aget_eq_of_mem h.imgKeys hmem3) (by simpa using hreg)
  have hperm : s.regImageIds.Perm (akeys (s.images.filter (fun e => e.2.registered))) :=
    (List.perm_ext_iff_of_nodup h.regNodup hnodup2).mpr hmemiff
  rw [numRegImages, hperm.length_eq, akeys, List.length_map]

/-! ## Claim theorems -/

/-- C1: After every sequence of valid mutating operations of the scene, the
bidirectional track/back-reference invariant holds: for every TrackElement
(img, slot) in the track of every existing Point3D p, image img exists, slot
is a valid keypoint index of that image, and that keypoint slot's
back-reference equals p's identifier; conversely, every keypoint slot whose
back-reference is set to a point identifier appears exactly once in that
point's track. -/
theorem C1_track_backref_bidirectional (ops : List Op) :
    TrackBackRefInv (execOps recInit ops) := by
  have h := inv_execOps ops
  constructor
  · intro pid p hp el hel
    exact h.fwd_nth hp hel
  · intro iid idx p2 pid hp2 hbr
    exact h.bwd iid idx p2 pid hp2 hbr

/-- C4: For any two image identifiers, the pair-statistic accessors for
(a, b) and (b, a) resolve to the same record, the pair identifier is a
symmetric function of the two identifiers, and the pair identifier is
injective on unordered pairs. -/
theorem C4_pair_id_symmetric_injective (s : Reconstruction) (a b c d : ImageId) :
    imagePair s a b = imagePair s b a ∧
    imagePairToPairId a b = imagePairToPairId b a ∧
    (imagePairToPairId a b = imagePairToPairId c d → (a = c ∧ b = d) ∨ (a = d ∧ b = c)) := by
  have hsymm : imagePairToPairId a b = imagePairToPairId b a := by
    rw [imagePairToPairId, imagePairToPairId, min_comm, max_comm]
  refine ⟨by rw [imagePair, imagePair, hsymm], hsymm, ?_⟩
  intro hpair
  rw [imagePairToPairId, imagePairToPairId] at hpair
  obtain ⟨hmin, hmax⟩ := Nat.pair_eq_pair.mp hpair
  rcases le_total a b with hab | hab
  · rcases le_total c d with hcd | hcd
    · rw [min_eq_left hab, min_eq_left hcd] at hmin
      rw [max_eq_right hab, max_eq_right hcd] at hmax
      exact Or.inl ⟨hmin, hmax⟩
    · rw [min_eq_left hab, min_eq_right hcd] at hmin
      rw [max_eq_right hab, max_eq_left hcd] at hmax
      exact Or.inr ⟨hmin, hmax⟩
  · rcases le_total c d with hcd | hcd
    · rw [min_eq_right hab, min_eq_left hcd] at hmin
      rw [max_eq_left hab, max_eq_right hcd] at hmax
      exact Or.inr ⟨hmax, hmin⟩
    · rw [min_eq_right hab, min_eq_right hcd] at hmin
      rw [max_eq_left hab, max_eq_left hcd] at hmax
      exact Or.inl ⟨hmax, hmin⟩

/-- Witness for C4 at concrete identifiers. -/
theorem C4_pair_id_witness :
    imagePair recInit 1 2 = imagePair recInit 2 1 ∧ ((1 = 1 ∧ 2 = 2) ∨ (1 = 2 ∧ 2 = 1)) :=
  ⟨(C4_pair_id_symmetric_injective recInit 1 2 1 2).1,
   (C4_pair_id_symmetric_injective recInit 1 2 1 2).2.2 rfl⟩

/-- C9: AddImage fails with InvalidArgument whenever the camera identifier
referenced by the image being added does not exist in the camera registry,
and in that case the scene state is unchanged. -/
theorem C9_addImage_unknown_camera (s : Reconstruction) (id : ImageId) (im : Image)
    (hcam : existsCamera s im.cameraId = false) :
    addImage s id im = .error .invalidArgument ∧ runOr s (addImage s id im) = s := by
  have hcond : ¬ existsCamera s im.cameraId = true := by
    rw [hcam]
    exact Bool.false_ne_true
  have herr : addImage s id im = .error .invalidArgument := by
    unfold addImage
    rw [if_pos hcond]
  refine ⟨herr, ?_⟩
  rw [herr]
  rfl

/-- Witness for C9: adding an image with an unknown camera to the empty
scene fails. -/
theorem C9_addImage_unknown_camera_witness :
    existsCamera recInit 5 = false ∧
    addImage recInit 7
      { cameraId := 5, pose := ((1, 0, 0, 0), (0, 0, 0)), registered := false,
        points2D := [] } = .error .invalidArgument :=
  ⟨rfl, (C9_addImage_unknown_camera recInit 7
    { cameraId := 5, pose := ((1, 0, 0, 0), (0, 0, 0)), registered := false,
      points2D := [] } rfl).1⟩

/-- C10: IsImageRegistered is only defined for images present in the image
registry: for a missing image the call fails with a lookup error rather
than returning false, and for an existing image it returns exactly that
image's registration flag. -/
theorem C10_isImageRegistered_lookup (s : Reconstruction) (id : ImageId) :
    (existsImage s id = false → isImageRegistered s id = none) ∧
    (∀ im, aget id s.images = some im → isImageRegistered s id = some im.registered) := by
  constructor
  · intro hex
    rw [isImageRegistered, imageAt]
    cases hg : aget id s.images with
    | none => rfl
    | some im =>
      rw [existsImage, hg] at hex
      exact Bool.noConfusion hex
  · intro im him
    rw [isImageRegistered, imageAt, him]
    rfl

/-- A successful identifier-generating `addPoint3D` makes the returned
identifier exist. -/
theorem addPoint3D_creates {s : Reconstruction} {xyz : ℚ × ℚ × ℚ}
    {track : List TrackElement} {color : Nat × Nat × Nat} {nid : Point3DId}
    {t : Reconstruction} (hok : addPoint3D s xyz track color = .ok (nid, t)) :
    existsPoint3D t nid = true := by
  obtain ⟨-, hnid, ht⟩ := addPoint3D_ok hok
  subst ht
  subst hnid
  rw [existsPoint3D]
  show (aget (s.maxPoint3DId + 1) (aset (s.maxPoint3DId + 1) _
    (setTrackBRs track (s.maxPoint3DId + 1) s).points3D)).isSome = true
  rw [aget_aset_self]
  rfl

/-- C5: Point3D identifiers are never reused: the identifier-generating
AddPoint3D overload returns an identifier strictly greater than every point
identifier that was ever present in the scene, including identifiers
introduced via the known-ID overload and identifiers of points deleted
since. -/
theorem C5_point_ids_never_reused (ops1 ops2 : List Op) (xyz : ℚ × ℚ × ℚ)
    (track : List TrackElement) (color : Nat × Nat × Nat) (nid : Point3DId)
    (t : Reconstruction) (pid : Point3DId)
    (hpresent : existsPoint3D (execOps recInit ops1) pid = true)
    (hok : addPoint3D (execOps recInit (ops1 ++ ops2)) xyz track color = .ok (nid, t)) :
    pid < nid ∧ existsPoint3D t nid = true := by
  refine ⟨?_, addPoint3D_creates hok⟩
  obtain ⟨-, hnid, -⟩ := addPoint3D_ok hok
  have h1 := inv_execOps ops1
  rw [existsPoint3D] at hpresent
  cases hg : aget pid (execOps recInit ops1).points3D with
  | none =>
    rw [hg] at hpresent
    exact Bool.noConfusion hpresent
  | some p =>
    have hb := h1.idBound pid p hg
    have hsplit : execOps recInit (ops1 ++ ops2) = execOps (execOps recInit ops1) ops2 := by
      show List.foldl execOp recInit (ops1 ++ ops2) =
        List.foldl execOp (List.foldl execOp recInit ops1) ops2
      rw [List.foldl_append]
    have hmono : (execOps recInit ops1).maxPoint3DId ≤
        (execOps recInit (ops1 ++ ops2)).maxPoint3DId := by
      rw [hsplit]
      exact maxPoint3DId_le_execOps _ ops2
    rw [hnid]
    exact Nat.lt_succ_of_le (Nat.le_trans hb hmono)

/-- Witness for C5: the identifier of a created-then-deleted point is
smaller than the next generated identifier. -/
theorem C5_point_ids_never_reused_witness :
    (1 : Nat) < 2 ∧ existsPoint3D
      { cameras := [], images := [], points3D :=
          [(2, { x := 0, y := 0, z := 0, color := (0, 0, 0), error := -1, track := [] })],
        imagePairStats := [], regImageIds := [], maxPoint3DId := 2 } 2 = true :=
  C5_point_ids_never_reused [Op.addPoint3D (0, 0, 0) [] (0, 0, 0)] [Op.deletePoint3D 1]
    (0, 0, 0) [] (0, 0, 0) 2
    { cameras := [], images := [], points3D :=
        [(2, { x := 0, y := 0, z := 0, color := (0, 0, 0), error := -1, track := [] })],
      imagePairStats := [], regImageIds := [], maxPoint3DId := 2 }
    1 rfl rfl

/-- C6: After every mutating operation, the registered-image sequence
contains exactly the image identifiers whose registration flag is set, with
no duplicates, so `NumRegImages` equals the number of flagged images; an
effective registration appends the identifier at the end of the sequence
(most recent last) and a deregistration removes the identifier preserving
the relative order of the remaining entries. -/
theorem C6_registered_image_sequence (ops : List Op) :
    (∀ iid, iid ∈ (execOps recInit ops).regImageIds ↔
      ∃ im, aget iid (execOps recInit ops).images = some im ∧ im.registered = true) ∧
    (execOps recInit ops).regImageIds.Nodup ∧
    numRegImages (execOps recInit ops) =
      ((execOps recInit ops).images.filter (fun e => e.2.registered)).length ∧
    (∀ id im, aget id (execOps recInit ops).images = some im → im.registered = false →
      (execOp (execOps recInit ops) (Op.registerImage id)).regImageIds =
        (execOps recInit ops).regImageIds ++ [id]) ∧
    (∀ id, existsImage (execOps recInit ops) id = true →
      (execOp (execOps recInit ops) (Op.deRegisterImage id)).regImageIds =
        (execOps recInit ops).regImageIds.filter (fun j => j ≠ id)) := by
  have h := inv_execOps ops
  refine ⟨?_, h.regNodup, numRegImages_eq_count h, ?_, ?_⟩
  · intro iid
    constructor
    · intro hmem
      exact h.regMem iid hmem
    · intro ⟨im, him, hreg⟩
      exact h.regFlag iid im him hreg
  · intro id im him hflag
    have hreg : registerImage (execOps recInit ops) id = Except.ok
        { execOps recInit ops with
          images := amodify id (fun im => { im with registered := true })
            (execOps recInit ops).images,
          regImageIds := (execOps recInit ops).regImageIds ++ [id] } := by
      simp [registerImage, him, hflag]
    show (runOr (execOps recInit ops) (registerImage (execOps recInit ops) id)).regImageIds = _
    rw [hreg]
    rfl
  · intro id hex
    cases him : aget id (execOps recInit ops).images with
    | none =>
      rw [existsImage, him] at hex
      exact Bool.noConfusion hex
    | some im =>
      have hdereg : deRegisterImage (execOps recInit ops) id = Except.ok
          { deleteObsOfImage (execOps recInit ops) id im.points2D.length with
            images := amodify id (fun im => { im with registered := false })
              (deleteObsOfImage (execOps recInit ops) id im.points2D.length).images,
            regImageIds := (deleteObsOfImage (execOps recInit ops) id
              im.points2D.length).regImageIds.filter (fun j => j ≠ id) } := by
        simp [deRegisterImage, him]
      show (runOr (execOps recInit ops) (deRegisterImage (execOps recInit ops) id)).regImageIds = _
      rw [hdereg]
      show ((deleteObsOfImage (execOps recInit ops) id
          im.points2D.length).regImageIds.filter (fun j => j ≠ id)) = _
      rw [deleteObsOfImage_regImageIds]

/-- Witness for C6: registering a fresh image appends it to the
registered-image sequence. -/
theorem C6_registered_image_sequence_witness :
    (execOp (execOps recInit [Op.addCamera 1 ⟨0, []⟩,
        Op.addImage 1 1 ((1, 0, 0, 0), (0, 0, 0)) []])
      (Op.registerImage 1)).regImageIds =
    (execOps recInit [Op.addCamera 1 ⟨0, []⟩,
        Op.addImage 1 1 ((1, 0, 0, 0), (0, 0, 0)) []]).regImageIds ++ [1] :=
  (C6_registered_image_sequence [Op.addCamera 1 ⟨0, []⟩,
      Op.addImage 1 1 ((1, 0, 0, 0), (0, 0, 0)) []]).2.2.2.1 1
    { cameraId := 1, pose := ((1, 0, 0, 0), (0, 0, 0)), registered := false, points2D := [] }
    (by decide) (by decide)

/-- C3: DeleteObservation(image_id, slot) removes the matching TrackElement
from the observed point's track and clears the keypoint back-reference; if
the point's track had exactly 2 elements before the call the entire point is
deleted, while deleting one observation of a point with 3 or more
observations leaves the point existing with a track shortened by exactly
one (and hence still of length at least 2). -/
theorem C3_delete_observation (ops : List Op) (id : ImageId) (idx : Point2DIdx)
    (p2 : Point2D) (pid : Point3DId) (p : Point3D)
    (hp2 : point2DAt (execOps recInit ops) id idx = some p2)
    (hbr : p2.point3DId = some pid)
    (hp : aget pid (execOps recInit ops).points3D = some p) :
    ∃ t, deleteObservation (execOps recInit ops) id idx = .ok t ∧
      point2DAt t id idx = some { p2 with point3DId := none } ∧
      (p.track.length = 2 → existsPoint3D t pid = false) ∧
      (3 ≤ p.track.length → ∃ q, aget pid t.points3D = some q ∧
        q.track = p.track.filter (fun e => e ≠ ⟨id, idx⟩) ∧
        q.track.length + 1 = p.track.length ∧ 2 ≤ q.track.length ∧
        existsPoint3D t pid = true) := by
  set s := execOps recInit ops with hs
  have h : Inv s := inv_execOps ops
  have hslot : (⟨id, idx⟩ : TrackElement) ∈ p.track := by
    obtain ⟨q, hq, hmem⟩ := h.slot_to_track hp2 hbr
    rw [hp] at hq
    injection hq with hq
    subst hq
    exact hmem
  have hstep : deleteObservation s id idx =
      if p.track.length ≤ 2 then deletePoint3D s pid
      else .ok (decPairsWith ⟨id, idx⟩ (p.track.filter (fun e => e ≠ ⟨id, idx⟩))
        (updatePoint pid (fun q => { q with track := q.track.filter (fun e => e ≠ ⟨id, idx⟩) })
          (setBR s id idx none))) := by
    simp [deleteObservation, hp2, hbr, hp]
  by_cases hlen : p.track.length ≤ 2
  · rw [if_pos hlen] at hstep
    have hdelok : deletePoint3D s pid = .ok
        { decPairsOfTrack p.track (clearTrackBRs p.track s) with
          points3D := aerase pid (decPairsOfTrack p.track (clearTrackBRs p.track s)).points3D } := by
      unfold deletePoint3D
      rw [hp]
    obtain ⟨p', hp', hpts, hmax, hpt2, -⟩ := deletePoint3D_spec hdelok
    rw [hp] at hp'
    injection hp' with hp'
    subst hp'
    refine ⟨_, hstep.trans hdelok, ?_, ?_, ?_⟩
    · rw [hpt2, if_pos hslot, hp2]
      rfl
    · intro hlen2
      rw [existsPoint3D, hpts, aget_aerase_self]
      rfl
    · intro h3
      exact absurd (Nat.le_trans h3 hlen) (by omega)
  · rw [if_neg hlen] at hstep
    obtain ⟨hgetpt, hkeyspt, hmax, hpt2, -⟩ :=
      deleteObservation_big_spec s id idx pid _ rfl
    refine ⟨_, hstep, ?_, ?_, ?_⟩
    · rw [hpt2, if_pos ⟨rfl, rfl⟩, hp2]
      rfl
    · intro hlen2
      exact absurd hlen2 (by omega)
    · intro h3
      have hcount : p.track.count ⟨id, idx⟩ = 1 := h.track_count_one hp hslot
      have hflen := length_filter_ne (⟨id, idx⟩ : TrackElement) p.track
      rw [hcount] at hflen
      refine ⟨{ p with track := p.track.filter (fun e => e ≠ (⟨id, idx⟩ : TrackElement)) },
        ?_, rfl, ?_, ?_, ?_⟩
      · rw [hgetpt, if_pos rfl, hp]
        rfl
      · exact hflen
      · show 2 ≤ (p.track.filter (fun e => e ≠ (⟨id, idx⟩ : TrackElement))).length
        omega
      · rw [existsPoint3D, hgetpt, if_pos rfl, hp]
        rfl

/-- The point stored by a successful identifier-generating `addPoint3D`. -/
theorem addPoint3D_lookup {s : Reconstruction} {xyz : ℚ × ℚ × ℚ}
    {track : List TrackElement} {color : Nat × Nat × Nat} {nid : Point3DId}
    {t : Reconstruction} (hok : addPoint3D s xyz track color = .ok (nid, t)) :
    aget nid t.points3D = some
      { x := xyz.1, y := xyz.2.1, z := xyz.2.2, color := color, error := -1,
        track := track } := by
  obtain ⟨-, hnid, ht⟩ := addPoint3D_ok hok
  subst ht
  subst hnid
  show aget (s.maxPoint3DId + 1) (aset (s.maxPoint3DId + 1) _
    (setTrackBRs track (s.maxPoint3DId + 1) s).points3D) = _
  rw [aget_aset_self]

/-- C2: For two existing distinct points, MergePoints3D creates a new point
whose position is the track-length-weighted average of the two positions,
whose track is the concatenation of both tracks (length n1 + n2) with every
moved TrackElement's keypoint back-reference retargeted to the new
identifier, deletes both source points, and returns the new point's
identifier. -/
theorem C2_merge_points (ops : List Op) (id1 id2 : Point3DId) (p1 p2 : Point3D)
    (h1 : aget id1 (execOps recInit ops).points3D = some p1)
    (h2 : aget id2 (execOps recInit ops).points3D = some p2)
    (hne : id1 ≠ id2) :
    ∃ nid t, mergePoints3D (execOps recInit ops) id1 id2 = .ok (nid, t) ∧
      (∃ q, aget nid t.points3D = some q ∧
        q.x = ((p1.track.length : ℚ) * p1.x + (p2.track.length : ℚ) * p2.x) /
          ((p1.track.length : ℚ) + (p2.track.length : ℚ)) ∧
        q.y = ((p1.track.length : ℚ) * p1.y + (p2.track.length : ℚ) * p2.y) /
          ((p1.track.length : ℚ) + (p2.track.length : ℚ)) ∧
        q.z = ((p1.track.length : ℚ) * p1.z + (p2.track.length : ℚ) * p2.z) /
          ((p1.track.length : ℚ) + (p2.track.length : ℚ)) ∧
        q.track = p1.track ++ p2.track ∧
        q.track.length = p1.track.length + p2.track.length) ∧
      (∀ el ∈ p1.track ++ p2.track, ∃ w,
        point2DAt t el.imageId el.point2DIdx = some w ∧ w.point3DId = some nid) ∧
      existsPoint3D t id1 = false ∧ existsPoint3D t id2 = false := by
  set s := execOps recInit ops with hs
  have h : Inv s := inv_execOps ops
  have hne21 : id2 ≠ id1 := Ne.symm hne
  obtain ⟨t1, hdel1⟩ : ∃ t1, deletePoint3D s id1 = .ok t1 := by
    unfold deletePoint3D
    rw [h1]
    exact ⟨_, rfl⟩
  obtain ⟨q1, hq1, hpts1, hmax1, hpt2x1, -⟩ := deletePoint3D_spec hdel1
  rw [h1] at hq1
  injection hq1 with hq1
  subst hq1
  have h2' : aget id2 t1.points3D = some p2 := by
    rw [hpts1, aget_aerase_ne hne21]
    exact h2
  obtain ⟨t2, hdel2⟩ : ∃ t2, deletePoint3D t1 id2 = .ok t2 := by
    unfold deletePoint3D
    rw [h2']
    exact ⟨_, rfl⟩
  obtain ⟨q2, hq2, hpts2, hmax2, hpt2x2, -⟩ := deletePoint3D_spec hdel2
  rw [h2'] at hq2
  injection hq2 with hq2
  subst hq2
  have hdisj : ∀ el ∈ p1.track, el ∉ p2.track := h.track_disjoint h1 h2 hne
  have hfree : ∀ el ∈ p1.track ++ p2.track, slotFree t2 el = true := by
    intro el hel
    obtain ⟨a, b⟩ := el
    rw [slotFree_iff]
    show ∃ w, point2DAt t2 a b = some w ∧ w.point3DId = none
    rcases List.mem_append.mp hel with hmem | hmem
    · obtain ⟨w, hw, hwbr⟩ := h.fwd id1 p1 h1 ⟨a, b⟩ hmem
      have hnot2 : (⟨a, b⟩ : TrackElement) ∉ p2.track := hdisj ⟨a, b⟩ hmem
      rw [hpt2x2, if_neg hnot2, hpt2x1, if_pos hmem, hw]
      exact ⟨_, rfl, rfl⟩
    · obtain ⟨w, hw, hwbr⟩ := h.fwd id2 p2 h2 ⟨a, b⟩ hmem
      have hnot1 : (⟨a, b⟩ : TrackElement) ∉ p1.track := fun hc => hdisj ⟨a, b⟩ hc hmem
      rw [hpt2x2, if_pos hmem, hpt2x1, if_neg hnot1, hw]
      exact ⟨_, rfl, rfl⟩
  have hnodup : (p1.track ++ p2.track).Nodup :=
    (h.track_nodup h1).append (h.track_nodup h2) hdisj
  have haddable : trackAddable t2 (p1.track ++ p2.track) := ⟨hnodup, hfree⟩
  obtain ⟨nid, T, haddok⟩ : ∃ nid T, addPoint3D t2
      (((p1.track.length : ℚ) * p1.x + (p2.track.length : ℚ) * p2.x) /
          ((p1.track.length : ℚ) + (p2.track.length : ℚ)),
       ((p1.track.length : ℚ) * p1.y + (p2.track.length : ℚ) * p2.y) /
          ((p1.track.length : ℚ) + (p2.track.length : ℚ)),
       ((p1.track.length : ℚ) * p1.z + (p2.track.length : ℚ) * p2.z) /
          ((p1.track.length : ℚ) + (p2.track.length : ℚ)))
      (p1.track ++ p2.track)
      ((p1.color.1 + p2.color.1) / 2, (p1.color.2.1 + p2.color.2.1) / 2,
       (p1.color.2.2 + p2.color.2.2) / 2) = .ok (nid, T) := by
    unfold addPoint3D
    rw [if_pos haddable]
    exact ⟨_, _, rfl⟩
  have hmerge : mergePoints3D s id1 id2 = .ok (nid, T) := by
    simp only [mergePoints3D, if_neg hne, h1, h2, hdel1, hdel2]
    exact haddok
  obtain ⟨-, hnid, hT⟩ := addPoint3D_ok haddok
  subst hT
  subst hnid
  have hid1lt : id1 ≠ t2.maxPoint3DId + 1 := by
    rw [hmax2, hmax1]
    exact Nat.ne_of_lt (Nat.lt_succ_of_le (h.idBound id1 p1 h1))
  have hid2lt : id2 ≠ t2.maxPoint3DId + 1 := by
    rw [hmax2, hmax1]
    exact Nat.ne_of_lt (Nat.lt_succ_of_le (h.idBound id2 p2 h2))
  refine ⟨_, _, hmerge, ?_, ?_, ?_, ?_⟩
  · exact ⟨_, addPoint3D_lookup haddok, rfl, rfl, rfl, rfl, List.length_append _ _⟩
  · intro el hel
    obtain ⟨a, b⟩ := el
    obtain ⟨w, hw, -⟩ := slotFree_iff.mp (hfree ⟨a, b⟩ hel)
    have hq : point2DAt (setTrackBRs (p1.track ++ p2.track) (t2.maxPoint3DId + 1) t2) a b =
        some { w with point3DId := some (t2.maxPoint3DId + 1) } := by
      rw [setTrackBRs_point2DAt, if_pos hel, hw]
      rfl
    exact ⟨{ w with point3DId := some (t2.maxPoint3DId + 1) }, hq, rfl⟩
  · rw [existsPoint3D]
    show (aget id1 (aset (t2.maxPoint3DId + 1) _
      (setTrackBRs (p1.track ++ p2.track) (t2.maxPoint3DId + 1) t2).points3D)).isSome = false
    rw [aget_aset_ne hid1lt, setTrackBRs_points3D, hpts2, aget_aerase_ne hne,
      hpts1, aget_aerase_self]
    rfl
  · rw [existsPoint3D]
    show (aget id2 (aset (t2.maxPoint3DId + 1) _
      (setTrackBRs (p1.track ++ p2.track) (t2.maxPoint3DId + 1) t2).points3D)).isSome = false
    rw [aget_aset_ne hid2lt, setTrackBRs_points3D, hpts2, aget_aerase_self]
    rfl

theorem akeys_map_vals {α β : Type} (g : α → β) (l : List (Nat × α)) :
    akeys (l.map (fun q => (q.1, g q.2))) = akeys l := by
  induction l with
  | nil => rfl
  | cons hd tl ih =>
    simp only [List.map_cons, akeys, List.map] at ih ⊢
    rw [ih]

theorem akeys_filter_sublist {α : Type} (P : Nat × α → Bool) (l : List (Nat × α)) :
    (akeys (l.filter P)).Sublist (akeys l) :=
  List.Sublist.map Prod.fst (List.filter_sublist l)

/-- C7: Crop(bbox) returns a new scene in which every 3D point lies inside
the bounding box, every image observes at least one retained point, every
camera is referenced by some retained image, and every retained point's
track refers only to keypoint slots that, in the original scene, were
observations of that (retained) point — never of a dropped point. -/
theorem C7_crop_containment (ops : List Op) (bbox : (ℚ × ℚ × ℚ) × (ℚ × ℚ × ℚ)) :
    (∀ pid p, aget pid (crop (execOps recInit ops) bbox).points3D = some p →
      pointInBox bbox p = true) ∧
    (∀ iid im, aget iid (crop (execOps recInit ops) bbox).images = some im →
      ∃ pid p, aget pid (crop (execOps recInit ops) bbox).points3D = some p ∧
        ∃ el ∈ p.track, el.imageId = iid) ∧
    (∀ cid cam, aget cid (crop (execOps recInit ops) bbox).cameras = some cam →
      ∃ iid im, aget iid (crop (execOps recInit ops) bbox).images = some im ∧
        im.cameraId = cid) ∧
    (∀ pid p, aget pid (crop (execOps recInit ops) bbox).points3D = some p →
      ∀ el ∈ p.track, ∃ p2,
        point2DAt (execOps recInit ops) el.imageId el.point2DIdx = some p2 ∧
        p2.point3DId = some pid) := by
  set s := execOps recInit ops with hs
  have h : Inv s := inv_execOps ops
  have hptkeys : (akeys ((cropKeptPoints s bbox).map
      (fun q => (q.1, cropPointTransform s bbox q.2)))).Nodup := by
    rw [akeys_map_vals (cropPointTransform s bbox)]
    exact h.ptKeys.sublist (akeys_filter_sublist _ _)
  have himgkeys : (akeys ((cropKeptImages s bbox).map
      (fun q => (q.1, cropImageTransform s bbox q.2)))).Nodup := by
    rw [akeys_map_vals (cropImageTransform s bbox)]
    exact h.imgKeys.sublist (akeys_filter_sublist _ _)
  have hptlookup : ∀ pid q, (pid, q) ∈ cropKeptPoints s bbox →
      aget pid (crop s bbox).points3D = some (cropPointTransform s bbox q) := by
    intro pid q hmem
    exact aget_eq_of_mem hptkeys (List.mem_map.mpr ⟨(pid, q), hmem, rfl⟩)
  have himglookup : ∀ iid im0, (iid, im0) ∈ cropKeptImages s bbox →
      aget iid (crop s bbox).images = some (cropImageTransform s bbox im0) := by
    intro iid im0 hmem
    exact aget_eq_of_mem himgkeys (List.mem_map.mpr ⟨(iid, im0), hmem, rfl⟩)
  have hptorig : ∀ pid p, aget pid (crop s bbox).points3D = some p →
      ∃ q, (pid, q) ∈ cropKeptPoints s bbox ∧ p = cropPointTransform s bbox q := by
    intro pid p hp
    have hmem := aget_mem hp
    obtain ⟨⟨pid', q⟩, hmemq, heq⟩ := List.mem_map.mp hmem
    rw [Prod.mk.injEq] at heq
    obtain ⟨h1, h2⟩ := heq
    subst h1
    exact ⟨q, hmemq, h2.symm⟩
  refine ⟨?_, ?_, ?_, ?_⟩
  · intro pid p hp
    obtain ⟨q, hmemq, hpq⟩ := hptorig pid p hp
    subst hpq
    have hbox := (List.mem_filter.mp hmemq).2
    exact hbox
  · intro iid im him
    have hmem := aget_mem him
    obtain ⟨⟨iid', im0⟩, hmem0, heq⟩ := List.mem_map.mp hmem
    rw [Prod.mk.injEq] at heq
    obtain ⟨h1, -⟩ := heq
    subst h1
    have hobs := (List.mem_filter.mp hmem0).2
    rw [cropObserves, List.any_eq_true] at hobs
    obtain ⟨⟨pid, q⟩, hmemq, hq⟩ := hobs
    rw [List.any_eq_true] at hq
    obtain ⟨el, helmem, heleq⟩ := hq
    rw [decide_eq_true_eq] at heleq
    refine ⟨pid, cropPointTransform s bbox q, hptlookup pid q hmemq, el, ?_, heleq⟩
    show el ∈ q.track.filter (fun el => decide (el.imageId ∈ akeys (cropKeptImages s bbox)))
    rw [List.mem_filter]
    refine ⟨helmem, ?_⟩
    rw [decide_eq_true_eq, heleq]
    exact List.mem_map.mpr ⟨(iid', im0), hmem0, rfl⟩
  · intro cid cam hc
    have hmem := aget_mem hc
    obtain ⟨hmemc, hpred⟩ := List.mem_filter.mp hmem
    rw [List.any_eq_true] at hpred
    obtain ⟨⟨iid, im0⟩, hkimem, hdec⟩ := hpred
    rw [decide_eq_true_eq] at hdec
    exact ⟨iid, cropImageTransform s bbox im0, himglookup iid im0 hkimem, hdec⟩
  · intro pid p hp el hel
    obtain ⟨q, hmemq, hpq⟩ := hptorig pid p hp
    subst hpq
    have helq : el ∈ q.track := by
      have h0 : el ∈ q.track.filter
          (fun el => decide (el.imageId ∈ akeys (cropKeptImages s bbox))) := hel
      exact (List.mem_filter.mp h0).1
    have hqs : aget pid s.points3D = some q :=
      aget_eq_of_mem h.ptKeys (List.mem_filter.mp hmemq).1
    exact h.fwd pid q hqs el helq

/-- Witness for C7: a concrete crop retains only the in-box point. -/
theorem C7_crop_containment_witness :
    pointInBox ((0, 0, 0), (2, 4, 4))
      { x := 1, y := 2, z := 3, color := (0, 0, 0), error := -1,
        track := [⟨1, 0⟩, ⟨2, 0⟩] } = true :=
  (C7_crop_containment
    [Op.addCamera 1 ⟨0, []⟩,
     Op.addImage 1 1 ((1, 0, 0, 0), (0, 0, 0)) [(0, 0), (1, 1)],
     Op.addImage 2 1 ((1, 0, 0, 0), (0, 0, 0)) [(0, 0), (1, 1)],
     Op.addPoint3D (1, 2, 3) [⟨1, 0⟩, ⟨2, 0⟩] (0, 0, 0),
     Op.addPoint3D (5, 6, 7) [⟨1, 1⟩, ⟨2, 1⟩] (0, 0, 0)]
    ((0, 0, 0), (2, 4, 4))).1 1
    { x := 1, y := 2, z := 3, color := (0, 0, 0), error := -1,
      track := [⟨1, 0⟩, ⟨2, 0⟩] }
    (by decide)

/-! ### Round-trip lemmas for the persistence codec -/

theorem rdNat_enc (n : Nat) (rest : List ℤ) : rdNat (encNat n ++ rest) = some (n, rest) := by
  show rdNat ((n : ℤ) :: rest) = some (n, rest)
  rw [rdNat, if_pos (Int.natCast_nonneg n), Int.toNat_natCast]

theorem rdNat_enc_end (n : Nat) : rdNat (encNat n) = some (n, []) := by
  show rdNat [(n : ℤ)] = some (n, [])
  rw [rdNat, if_pos (Int.natCast_nonneg n), Int.toNat_natCast]

theorem rdBool_enc (b : Bool) (rest : List ℤ) : rdBool (encBool b ++ rest) = some (b, rest) := by
  cases b <;> rfl

theorem rdRat_enc (q : ℚ) (rest : List ℤ) : rdRat (encRat q ++ rest) = some (q, rest) := by
  show rdRat (q.num :: (q.den : ℤ) :: rest) = some (q, rest)
  rw [rdRat, if_pos (Int.natCast_pos.mpr q.pos)]
  congr 1
  rw [Prod.mk.injEq]
  refine ⟨?_, rfl⟩
  push_cast
  exact Rat.num_div_den q

theorem rdOptNat_enc (v : Option Nat) (rest : List ℤ) :
    rdOptNat (encOptNat v ++ rest) = some (v, rest) := by
  cases v with
  | none => rfl
  | some n =>
    show rdOptNat ((n : ℤ) :: rest) = some (some n, rest)
    rw [rdOptNat, if_neg (not_lt.mpr (Int.natCast_nonneg n)), Int.toNat_natCast]

theorem pbind_some {α β : Type} (a : α) (ts : List ℤ)
    (f : α → List ℤ → Option (β × List ℤ)) : pbind (some (a, ts)) f = f a ts := rfl

theorem rdMany_enc {α : Type} (enc : α → List ℤ) (rd : List ℤ → Option (α × List ℤ))
    (h : ∀ x rest, rd (enc x ++ rest) = some (x, rest)) (l : List α) (rest : List ℤ) :
    rdMany rd l.length ((l.map enc).flatten ++ rest) = some (l, rest) := by
  induction l with
  | nil => rfl
  | cons a l ih =>
    show rdMany rd (l.length + 1) (((enc a :: l.map enc).flatten) ++ rest) = some (a :: l, rest)
    rw [List.flatten_cons, List.append_assoc]
    show pbind (rd (enc a ++ ((l.map enc).flatten ++ rest)))
        (fun x ts1 => pbind (rdMany rd l.length ts1) fun xs ts2 => some (x :: xs, ts2)) =
      some (a :: l, rest)
    simp only [h, ih, pbind_some]

theorem rdList_enc {α : Type} (enc : α → List ℤ) (rd : List ℤ → Option (α × List ℤ))
    (h : ∀ x rest, rd (enc x ++ rest) = some (x, rest)) (l : List α) (rest : List ℤ) :
    rdList rd (encList enc l ++ rest) = some (l, rest) := by
  rw [encList, List.append_assoc, rdList]
  simp only [rdNat_enc, pbind_some]
  exact rdMany_enc enc rd h l rest

theorem rdEntry_enc {α : Type} (enc : α → List ℤ) (rd : List ℤ → Option (α × List ℤ))
    (h : ∀ x rest, rd (enc x ++ rest) = some (x, rest)) (e : Nat × α) (rest : List ℤ) :
    rdEntry rd (encEntry enc e ++ rest) = some (e, rest) := by
  obtain ⟨k, v⟩ := e
  rw [encEntry, List.append_assoc, rdEntry]
  simp only [rdNat_enc, pbind_some, h]

theorem rdCamera_enc (c : Camera) (rest : List ℤ) :
    rdCamera (encCamera c ++ rest) = some (c, rest) := by
  rw [encCamera, List.append_assoc, rdCamera]
  simp only [rdNat_enc, pbind_some, rdList_enc encRat rdRat rdRat_enc]

theorem rdPoint2D_enc (p : Point2D) (rest : List ℤ) :
    rdPoint2D (encPoint2D p ++ rest) = some (p, rest) := by
  rw [encPoint2D]
  simp only [List.append_assoc]
  rw [rdPoint2D]
  simp only [rdRat_enc, rdOptNat_enc, pbind_some]

theorem rdPose_enc (p : (ℚ × ℚ × ℚ × ℚ) × (ℚ × ℚ × ℚ)) (rest : List ℤ) :
    rdPose (encPose p ++ rest) = some (p, rest) := by
  rw [encPose]
  simp only [List.append_assoc]
  rw [rdPose]
  simp only [rdRat_enc, pbind_some]

theorem rdTrackEl_enc (el : TrackElement) (rest : List ℤ) :
    rdTrackEl (encTrackEl el ++ rest) = some (el, rest) := by
  rw [encTrackEl, List.append_assoc, rdTrackEl]
  simp only [rdNat_enc, pbind_some]

theorem rdImage_enc (im : Image) (rest : List ℤ) :
    rdImage (encImage im ++ rest) = some (im, rest) := by
  rw [encImage]
  simp only [List.append_assoc]
  rw [rdImage]
  simp only [rdNat_enc, rdPose_enc, rdBool_enc, pbind_some,
    rdList_enc encPoint2D rdPoint2D rdPoint2D_enc]

theorem rdPoint3D_enc (p : Point3D) (rest : List ℤ) :
    rdPoint3D (encPoint3D p ++ rest) = some (p, rest) := by
  rw [encPoint3D]
  simp only [List.append_assoc]
  rw [rdPoint3D]
  simp only [rdRat_enc, rdNat_enc, pbind_some, rdList_enc encTrackEl rdTrackEl rdTrackEl_enc]

theorem rdStat_enc (st : ImagePairStat) (rest : List ℤ) :
    rdStat (encStat st ++ rest) = some (st, rest) := by
  rw [encStat, List.append_assoc, rdStat]
  simp only [rdNat_enc, pbind_some]

theorem decodeRecon_encodeRecon (s : Reconstruction) :
    decodeRecon (encodeRecon s) = some s := by
  rw [encodeRecon]
  simp only [List.append_assoc]
  rw [decodeRecon]
  simp only [pbind_some,
    rdList_enc (encEntry encCamera) (rdEntry rdCamera)
      (rdEntry_enc encCamera rdCamera rdCamera_enc),
    rdList_enc (encEntry encImage) (rdEntry rdImage)
      (rdEntry_enc encImage rdImage rdImage_enc),
    rdList_enc (encEntry encPoint3D) (rdEntry rdPoint3D)
      (rdEntry_enc encPoint3D rdPoint3D rdPoint3D_enc),
    rdList_enc (encEntry encStat) (rdEntry rdStat)
      (rdEntry_enc encStat rdStat rdStat_enc),
    rdList_enc encNat rdNat rdNat_enc,
    rdNat_enc_end]
  simp only [if_true]
  rfl

/-- C8: WriteBinary followed by ReadBinary reproduces the identical scene:
the same cameras, images (pose, camera reference, registration flag, full
keypoint lists with their back-references), points with their tracks, pair
statistics, registered-image sequence, and identifier-generator state; and
the dispatching Write followed by Read — which prefers the binary
representation whenever it exists — reproduces the same scene as well. -/
theorem C8_write_read_roundtrip (s : Reconstruction) (fs : FileStore) :
    decodeRecon (encodeRecon s) = some s ∧
    readBinary (writeBinary s fs) = some s ∧
    readRecon (writeRecon s fs) = some s := by
  refine ⟨decodeRecon_encodeRecon s, ?_, ?_⟩
  · show decodeRecon (encodeRecon s) = some s
    exact decodeRecon_encodeRecon s
  · show decodeRecon (encodeRecon s) = some s
    exact decodeRecon_encodeRecon s

/-- Witness for C2: merging two concrete points with track lengths 2 and 2. -/
theorem C2_merge_points_witness :
    ∃ nid t, mergePoints3D (execOps recInit
        [Op.addCamera 1 ⟨0, []⟩,
         Op.addImage 1 1 ((1, 0, 0, 0), (0, 0, 0)) [(0, 0), (1, 1)],
         Op.addImage 2 1 ((1, 0, 0, 0), (0, 0, 0)) [(0, 0), (1, 1)],
         Op.addPoint3D (1, 2, 3) [⟨1, 0⟩, ⟨2, 0⟩] (0, 0, 0),
         Op.addPoint3D (5, 6, 7) [⟨1, 1⟩, ⟨2, 1⟩] (0, 0, 0)]) 1 2 = .ok (nid, t) ∧
      (∃ q, aget nid t.points3D = some q ∧
        q.x = (((([(⟨1, 0⟩ : TrackElement), ⟨2, 0⟩] : List TrackElement).length : ℚ)) * 1 +
            ((([(⟨1, 1⟩ : TrackElement), ⟨2, 1⟩] : List TrackElement).length : ℚ)) * 5) /
          ((([(⟨1, 0⟩ : TrackElement), ⟨2, 0⟩] : List TrackElement).length : ℚ) +
            (([(⟨1, 1⟩ : TrackElement), ⟨2, 1⟩] : List TrackElement).length : ℚ)) ∧
        q.y = (((([(⟨1, 0⟩ : TrackElement), ⟨2, 0⟩] : List TrackElement).length : ℚ)) * 2 +
            ((([(⟨1, 1⟩ : TrackElement), ⟨2, 1⟩] : List TrackElement).length : ℚ)) * 6) /
          ((([(⟨1, 0⟩ : TrackElement), ⟨2, 0⟩] : List TrackElement).length : ℚ) +
            (([(⟨1, 1⟩ : TrackElement), ⟨2, 1⟩] : List TrackElement).length : ℚ)) ∧
        q.z = (((([(⟨1, 0⟩ : TrackElement), ⟨2, 0⟩] : List TrackElement).length : ℚ)) * 3 +
            ((([(⟨1, 1⟩ : TrackElement), ⟨2, 1⟩] : List TrackElement).length : ℚ)) * 7) /
          ((([(⟨1, 0⟩ : TrackElement), ⟨2, 0⟩] : List TrackElement).length : ℚ) +
            (([(⟨1, 1⟩ : TrackElement), ⟨2, 1⟩] : List TrackElement).length : ℚ)) ∧
        q.track = [(⟨1, 0⟩ : TrackElement), ⟨2, 0⟩] ++ [(⟨1, 1⟩ : TrackElement), ⟨2, 1⟩] ∧
        q.track.length = ([(⟨1, 0⟩ : TrackElement), ⟨2, 0⟩] : List TrackElement).length +
          ([(⟨1, 1⟩ : TrackElement), ⟨2, 1⟩] : List TrackElement).length) ∧
      (∀ el ∈ ([(⟨1, 0⟩ : TrackElement), ⟨2, 0⟩] : List TrackElement) ++
          [(⟨1, 1⟩ : TrackElement), ⟨2, 1⟩], ∃ w,
        point2DAt t el.imageId el.point2DIdx = some w ∧ w.point3DId = some nid) ∧
      existsPoint3D t 1 = false ∧ existsPoint3D t 2 = false :=
  C2_merge_points
    [Op.addCamera 1 ⟨0, []⟩,
     Op.addImage 1 1 ((1, 0, 0, 0), (0, 0, 0)) [(0, 0), (1, 1)],
     Op.addImage 2 1 ((1, 0, 0, 0), (0, 0, 0)) [(0, 0), (1, 1)],
     Op.addPoint3D (1, 2, 3) [⟨1, 0⟩, ⟨2, 0⟩] (0, 0, 0),
     Op.addPoint3D (5, 6, 7) [⟨1, 1⟩, ⟨2, 1⟩] (0, 0, 0)] 1 2
    { x := 1, y := 2, z := 3, color := (0, 0, 0), error := -1, track := [⟨1, 0⟩, ⟨2, 0⟩] }
    { x := 5, y := 6, z := 7, color := (0, 0, 0), error := -1, track := [⟨1, 1⟩, ⟨2, 1⟩] }
    rfl rfl (by decide)

/-- Witness for C3 at a concrete two-observation point: the point is deleted
entirely. -/
theorem C3_delete_observation_witness :
    ∃ t, deleteObservation (execOps recInit
        [Op.addCamera 1 ⟨0, []⟩,
         Op.addImage 1 1 ((1, 0, 0, 0), (0, 0, 0)) [(0, 0)],
         Op.addImage 2 1 ((1, 0, 0, 0), (0, 0, 0)) [(0, 0)],
         Op.addPoint3D (0, 0, 0) [⟨1, 0⟩, ⟨2, 0⟩] (0, 0, 0)]) 1 0 = .ok t ∧
      point2DAt t 1 0 = some { x := 0, y := 0, point3DId := none } ∧
      (([(⟨1, 0⟩ : TrackElement), ⟨2, 0⟩] : List TrackElement).length = 2 →
        existsPoint3D t 1 = false) ∧
      (3 ≤ ([(⟨1, 0⟩ : TrackElement), ⟨2, 0⟩] : List TrackElement).length →
        ∃ q, aget 1 t.points3D = some q ∧
          q.track = ([(⟨1, 0⟩ : TrackElement), ⟨2, 0⟩] : List TrackElement).filter
            (fun e => e ≠ ⟨1, 0⟩) ∧
          q.track.length + 1 = ([(⟨1, 0⟩ : TrackElement), ⟨2, 0⟩] : List TrackElement).length ∧
          2 ≤ q.track.length ∧ existsPoint3D t 1 = true) :=
  C3_delete_observation
    [Op.addCamera 1 ⟨0, []⟩,
     Op.addImage 1 1 ((1, 0, 0, 0), (0, 0, 0)) [(0, 0)],
     Op.addImage 2 1 ((1, 0, 0, 0), (0, 0, 0)) [(0, 0)],
     Op.addPoint3D (0, 0, 0) [⟨1, 0⟩, ⟨2, 0⟩] (0, 0, 0)] 1 0
    { x := 0, y := 0, point3DId := some 1 } 1
    { x := 0, y := 0, z := 0, color := (0, 0, 0), error := -1,
      track := [⟨1, 0⟩, ⟨2, 0⟩] }
    rfl rfl rfl

/-- Witness for C10: lookup failure on the empty scene, and the exact flag
for a freshly added image. -/
theorem C10_isImageRegistered_witness :
    isImageRegistered recInit 3 = none ∧
    isImageRegistered
      (execOps recInit [Op.addCamera 1 ⟨0, []⟩, Op.addImage 1 1 ((1, 0, 0, 0), (0, 0, 0)) []])
      1 = some false :=
  ⟨(C10_isImageRegistered_lookup recInit 3).1 rfl,
   (C10_isImageRegistered_lookup
      (execOps recInit [Op.addCamera 1 ⟨0, []⟩, Op.addImage 1 1 ((1, 0, 0, 0), (0, 0, 0)) []])
      1).2
    { cameraId := 1, pose := ((1, 0, 0, 0), (0, 0, 0)), registered := false, points2D := [] }
    rfl⟩

end Colmap
